import Mathlib

/-
Shallow embedding of the MassiveSweeper backend core (src/server.js, with
configuration constants from src/constants.js generalized into an explicit
`Config` record so that worlds of every size can be reasoned about).

The JavaScript world grid `completeGrid[y][x]` is modelled as a total
function `Grid : Int → Int → Cell` (first argument x, second y); every
access the server performs on it is guarded by an explicit bounds check in
the source, so the in-bounds behaviour of the two representations agrees.
The chunk extraction path is the one place the source indexes the array
without a lower-bounds guard, so there the JavaScript array semantics
(missing rows are `undefined`, reading a property of `undefined` throws,
spreading `undefined` yields an object with no fields) is modelled
explicitly via `Except` and `ChunkCell`.

`Math.random()`-driven mine placement is modelled by an explicit stream of
picked coordinates; the rejection-sampling `while` loop diverges exactly
when the stream is exhausted early, which the model renders as `none`.
-/

namespace MassiveSweeper

/-- One cell of the world grid.  The JavaScript objects also carry their
own `x`/`y` position; the position is the index into the grid and is never
read back by the core logic, so it is not duplicated here. -/
structure Cell where
  revealed : Bool
  hasMine : Bool
  adjacentMines : Nat
  flagged : Bool
deriving DecidableEq, Repr

/-- The default cell produced at grid creation and for out-of-bounds
placeholders. -/
def Cell.init : Cell := ⟨false, false, 0, false⟩

/-- The configuration constants of src/constants.js, generalized to
parameters (CHUNK_SIZE = 100, GRID_WIDTH = 800, GRID_HEIGHT = 700 in the
deployed system). -/
structure Config where
  CHUNK_SIZE : Int
  GRID_WIDTH : Int
  GRID_HEIGHT : Int
deriving DecidableEq, Repr

/-- The deployed constants from src/constants.js. -/
def defaultConfig : Config := ⟨100, 800, 700⟩

/-- The world grid, `completeGrid[y][x]` accessed as `g x y`. -/
abbrev Grid := Int → Int → Cell

/-- A coordinate is inside the world rectangle. -/
def InBounds (cfg : Config) (x y : Int) : Prop :=
  0 ≤ x ∧ x < cfg.GRID_WIDTH ∧ 0 ≤ y ∧ y < cfg.GRID_HEIGHT

instance (cfg : Config) (x y : Int) : Decidable (InBounds cfg x y) := by
  unfold InBounds; infer_instance

/-- Functional update: `completeGrid[y][x].revealed = true`. -/
def setRevealed (g : Grid) (x y : Int) : Grid :=
  fun a b => if a = x ∧ b = y then { g a b with revealed := true } else g a b

/-- Functional update: `completeGrid[y][x].hasMine = true`. -/
def setMine (g : Grid) (x y : Int) : Grid :=
  fun a b => if a = x ∧ b = y then { g a b with hasMine := true } else g a b

/-- Functional update: `cell.flagged = !cell.flagged`. -/
def toggleFlagged (g : Grid) (x y : Int) : Grid :=
  fun a b => if a = x ∧ b = y then { g a b with flagged := !(g a b).flagged } else g a b

/-- Functional update: `completeGrid[y][x].adjacentMines = n`. -/
def setAdjacent (g : Grid) (x y : Int) (n : Nat) : Grid :=
  fun a b => if a = x ∧ b = y then { g a b with adjacentMines := n } else g a b

/-- The eight neighbor offsets `(dx, dy)` in the order the nested
`for (dy ...) for (dx ...)` loops of the source visit them (skipping
`(0,0)`). -/
def neighborOffsets : List (Int × Int) :=
  [(-1, -1), (0, -1), (1, -1), (-1, 0), (1, 0), (-1, 1), (0, 1), (1, 1)]

/-- `countAdjacentMinesInCompleteGrid(x, y)` of src/server.js: count the
in-bounds 8-neighbors that carry a mine. -/
def countAdjacentMinesInCompleteGrid (cfg : Config) (g : Grid) (x y : Int) : Nat :=
  neighborOffsets.foldl (fun count d =>
    let nx := x + d.1
    let ny := y + d.2
    if 0 ≤ nx ∧ nx < cfg.GRID_WIDTH ∧ 0 ≤ ny ∧ ny < cfg.GRID_HEIGHT then
      if (g nx ny).hasMine then count + 1 else count
    else count) 0

/-- `calculateAdjacentCountsForCompleteGrid()` of src/server.js.  The
source mutates `adjacentMines` cell by cell while iterating; since the
count reads only `hasMine`, which the loop never writes, the in-place
sweep equals this simultaneous update. -/
def calculateAdjacentCountsForCompleteGrid (cfg : Config) (g : Grid) : Grid :=
  fun x y =>
    if InBounds cfg x y then
      { g x y with adjacentMines := countAdjacentMinesInCompleteGrid cfg g x y }
    else g x y

/-- `placeMinesInCompleteGrid()` of src/server.js: rejection sampling
without replacement.  `stream` is the sequence of coordinates produced by
`Math.floor(Math.random() * GRID_WIDTH/HEIGHT)`; the `while` loop runs
until `placed` reaches `mineCount`, so an exhausted stream with the target
unmet corresponds to the loop never terminating, modelled as `none`. -/
def placeMinesInCompleteGrid (g : Grid) (placed mineCount : Int) :
    List (Int × Int) → Option Grid
  | [] => if placed < mineCount then none else some g
  | pick :: rest =>
    if placed < mineCount then
      if (g pick.1 pick.2).hasMine then
        placeMinesInCompleteGrid g placed mineCount rest
      else
        placeMinesInCompleteGrid (setMine g pick.1 pick.2) (placed + 1) mineCount rest
    else some g

/-- `Math.round(totalCells * MINE_PERCENTAGE)` of src/server.js.  The
mine percentage is modelled as a rational; `Math.round` rounds half toward
positive infinity, which is Mathlib's `round`. -/
def mineCountOf (cfg : Config) (minePercentage : ℚ) : Int :=
  round ((cfg.GRID_WIDTH * cfg.GRID_HEIGHT : Int) * minePercentage)

/-- `initializeCompleteGrid()` of src/server.js: build the all-default
grid, place mines, then compute every adjacency count.  Performs no
validation of dimensions or mine percentage, faithfully to the source. -/
def initializeCompleteGrid (cfg : Config) (minePercentage : ℚ)
    (stream : List (Int × Int)) : Option Grid :=
  match placeMinesInCompleteGrid (fun _ _ => Cell.init) 0
      (mineCountOf cfg minePercentage) stream with
  | none => none
  | some g1 => some (calculateAdjacentCountsForCompleteGrid cfg g1)

/-- An entry of an extracted chunk as JavaScript produces it: either a
value copy `{ ...cell }` of a world cell (or a synthesized placeholder),
or the field-less object produced by spreading `undefined` when
`completeGrid[gridY][gridX]` names a missing column. -/
inductive ChunkCell where
  | cell (c : Cell)
  | emptyObj
deriving DecidableEq, Repr

/-- One entry of `extractChunkFromCompleteGrid`.  The source checks only
the upper bounds `gridX < GRID_WIDTH && gridY < GRID_HEIGHT`; rows of
`completeGrid` exist exactly for `0 ≤ gridY < GRID_HEIGHT`, so a negative
`gridY` reads a property of `undefined` and throws (`Except.error`), while
a negative `gridX` spreads `undefined` into an object with no fields. -/
def extractCellJs (cfg : Config) (g : Grid) (gridX gridY : Int) :
    Except Unit ChunkCell :=
  if gridX < cfg.GRID_WIDTH ∧ gridY < cfg.GRID_HEIGHT then
    if 0 ≤ gridY then
      if 0 ≤ gridX then .ok (.cell (g gridX gridY))
      else .ok .emptyObj
    else .error ()
  else .ok (.cell { revealed := false, hasMine := false, adjacentMines := 0, flagged := false })

/-- `extractChunkFromCompleteGrid(cx, cy)` of src/server.js. -/
def extractChunkFromCompleteGrid (cfg : Config) (g : Grid) (cx cy : Int) :
    Except Unit (List (List ChunkCell)) :=
  let startX := cx * cfg.CHUNK_SIZE
  let startY := cy * cfg.CHUNK_SIZE
  (List.range cfg.CHUNK_SIZE.toNat).mapM (fun (y : Nat) =>
    (List.range cfg.CHUNK_SIZE.toNat).mapM (fun (x : Nat) =>
      extractCellJs cfg g (startX + (x : Int)) (startY + (y : Int))))

/-- The `gridChunks` map of src/server.js; the JavaScript string key
`cx,cy` is modelled by the pair itself (the encoding is injective). -/
abbrev ChunkMap := List ((Int × Int) × List (List ChunkCell))

/-- `getOrCreateChunk(cx, cy)` of src/server.js: return the cached chunk
when present, otherwise extract from the complete grid and cache it. -/
def getOrCreateChunk (cfg : Config) (chunks : ChunkMap) (g : Grid) (cx cy : Int) :
    Except Unit (ChunkMap × List (List ChunkCell)) :=
  match chunks.lookup (cx, cy) with
  | some ch => .ok (chunks, ch)
  | none =>
    match extractChunkFromCompleteGrid cfg g cx cy with
    | .error e => .error e
    | .ok ch => .ok (((cx, cy), ch) :: chunks, ch)

/-- A record pushed onto a `revealed` list (the payload of a
`cell_update` broadcast): chunk coordinate plus local offset.  The live
`cell` reference of the JavaScript record is omitted; the claims speak
about the grid state instead. -/
structure CellUpdate where
  cx : Int
  cy : Int
  x : Int
  y : Int
deriving DecidableEq, Repr

/-- The chunk/local record the flood fill and the chord handler build for
a global coordinate: `Math.floor(g / CHUNK_SIZE)` and `g % CHUNK_SIZE`
(JavaScript `%` is the truncated remainder). -/
def chunkRecordOf (cfg : Config) (gx gy : Int) : CellUpdate :=
  ⟨Int.fdiv gx cfg.CHUNK_SIZE, Int.fdiv gy cfg.CHUNK_SIZE,
    Int.tmod gx cfg.CHUNK_SIZE, Int.tmod gy cfg.CHUNK_SIZE⟩

/-- The global coordinate a record denotes: chunk origin plus local
offset. -/
def globOf (cfg : Config) (r : CellUpdate) : Int × Int :=
  (r.cx * cfg.CHUNK_SIZE + r.x, r.cy * cfg.CHUNK_SIZE + r.y)

/-- Global coordinates of a whole record list. -/
def globList (cfg : Config) (l : List CellUpdate) : List (Int × Int) :=
  l.map (globOf cfg)

/-- The mutable state threaded through the recursive `flood` closure of
src/server.js: the grid, the `visited` set (JavaScript `Set` of string
keys, modelled as a finite set of coordinates), and the `revealed`
accumulator array. -/
structure FloodState where
  grid : Grid
  visited : Finset (Int × Int)
  acc : List CellUpdate

/-- Recursion allowance for the flood fill.  The JavaScript recursion
terminates because every call either returns at the `visited` check or
inserts a fresh coordinate; the fuel is fixed at one more than the cell
count of the world, which is proved never to run out. -/
def floodFuel (cfg : Config) : Nat :=
  (cfg.GRID_WIDTH * cfg.GRID_HEIGHT).toNat + 1

/-- One neighbor-loop iteration of the flood fill, abstracted over the
recursive call; definitionally equal to the inline loop body of `flood`
(see `flood_succ`), named so the traversal lemmas can speak about it. -/
def floodStep (cfg : Config) (rec : FloodState → Int → Int → FloodState)
    (gx gy : Int) (t : FloodState) (d : Int × Int) : FloodState :=
  if 0 ≤ gx + d.1 ∧ gx + d.1 < cfg.GRID_WIDTH ∧ 0 ≤ gy + d.2 ∧ gy + d.2 < cfg.GRID_HEIGHT then
    if !(t.grid (gx + d.1) (gy + d.2)).revealed && !(t.grid (gx + d.1) (gy + d.2)).flagged &&
        !(t.grid (gx + d.1) (gy + d.2)).hasMine then
      rec t (gx + d.1) (gy + d.2)
    else t
  else t

/-- The inner `flood(globalX, globalY)` closure of `revealCell` (and,
identically, of `revealCellWithFlood`) in src/server.js. -/
def flood (cfg : Config) : Nat → FloodState → Int → Int → FloodState
  | 0, s, _, _ => s
  | fuel + 1, s, gx, gy =>
    if (gx, gy) ∈ s.visited then s
    else
      let s1 : FloodState := ⟨s.grid, insert (gx, gy) s.visited, s.acc⟩
      let cell := s1.grid gx gy
      if cell.revealed || cell.flagged then s1
      else
        let s2 : FloodState :=
          ⟨setRevealed s1.grid gx gy, s1.visited, s1.acc ++ [chunkRecordOf cfg gx gy]⟩
        if cell.adjacentMines == 0 && !cell.hasMine then
          neighborOffsets.foldl (fun t d =>
            let nx := gx + d.1
            let ny := gy + d.2
            if 0 ≤ nx ∧ nx < cfg.GRID_WIDTH ∧ 0 ≤ ny ∧ ny < cfg.GRID_HEIGHT then
              let neighborCell := t.grid nx ny
              if !neighborCell.revealed && !neighborCell.flagged && !neighborCell.hasMine then
                flood cfg fuel t nx ny
              else t
            else t) s2
        else s2

/-- `revealCell(cx, cy, x, y)` of src/server.js.  State is
`(grid, bombsExploded)`; the result is the `revealed` list plus the new
state. -/
def revealCell (cfg : Config) (g : Grid) (bombsExploded : Int) (cx cy x y : Int) :
    List CellUpdate × Grid × Int :=
  let globalX := cx * cfg.CHUNK_SIZE + x
  let globalY := cy * cfg.CHUNK_SIZE + y
  if globalX < 0 ∨ globalX ≥ cfg.GRID_WIDTH ∨ globalY < 0 ∨ globalY ≥ cfg.GRID_HEIGHT then
    ([], g, bombsExploded)
  else
    let cell := g globalX globalY
    if cell.revealed || cell.flagged then ([], g, bombsExploded)
    else if cell.adjacentMines == 0 && !cell.hasMine then
      let r := flood cfg (floodFuel cfg) ⟨g, ∅, []⟩ globalX globalY
      (r.acc, r.grid, bombsExploded)
    else
      let bombs := if cell.hasMine then bombsExploded + 1 else bombsExploded
      ([⟨cx, cy, x, y⟩], setRevealed g globalX globalY, bombs)

/-- `revealCellWithFlood(globalX, globalY)` of src/server.js (the helper
the chord handler uses for safe candidates; it takes global coordinates,
performs no bounds check and never touches the bomb counter). -/
def revealCellWithFlood (cfg : Config) (g : Grid) (globalX globalY : Int) :
    List CellUpdate × Grid :=
  let cell := g globalX globalY
  if cell.revealed || cell.flagged then ([], g)
  else if cell.adjacentMines == 0 && !cell.hasMine then
    let r := flood cfg (floodFuel cfg) ⟨g, ∅, []⟩ globalX globalY
    (r.acc, r.grid)
  else
    ([chunkRecordOf cfg globalX globalY], setRevealed g globalX globalY)

/-- The neighbor scan of `handleChordClick`: count flagged neighbors and
revealed mine neighbors, and collect the unrevealed candidates (with the
cell value captured at scan time, as the source captures the object
reference). -/
def chordScan (cfg : Config) (g : Grid) (globalX globalY : Int) :
    Nat × Nat × List (Int × Int × Cell) :=
  neighborOffsets.foldl (fun acc d =>
    let nx := globalX + d.1
    let ny := globalY + d.2
    if 0 ≤ nx ∧ nx < cfg.GRID_WIDTH ∧ 0 ≤ ny ∧ ny < cfg.GRID_HEIGHT then
      let neighborCell := g nx ny
      if neighborCell.flagged then (acc.1 + 1, acc.2.1, acc.2.2)
      else if neighborCell.revealed && neighborCell.hasMine then (acc.1, acc.2.1 + 1, acc.2.2)
      else if !neighborCell.revealed then (acc.1, acc.2.1, acc.2.2 ++ [(nx, ny, neighborCell)])
      else acc
    else acc) (0, 0, [])

/-- One neighbor-scan iteration of `handleChordClick`, named for the
lemmas (definitionally the loop body of `chordScan`). -/
def chordScanStep (cfg : Config) (g : Grid) (globalX globalY : Int)
    (acc : Nat × Nat × List (Int × Int × Cell)) (d : Int × Int) :
    Nat × Nat × List (Int × Int × Cell) :=
  if 0 ≤ globalX + d.1 ∧ globalX + d.1 < cfg.GRID_WIDTH ∧ 0 ≤ globalY + d.2 ∧
      globalY + d.2 < cfg.GRID_HEIGHT then
    if (g (globalX + d.1) (globalY + d.2)).flagged then (acc.1 + 1, acc.2.1, acc.2.2)
    else if (g (globalX + d.1) (globalY + d.2)).revealed &&
        (g (globalX + d.1) (globalY + d.2)).hasMine then
      (acc.1, acc.2.1 + 1, acc.2.2)
    else if !(g (globalX + d.1) (globalY + d.2)).revealed then
      (acc.1, acc.2.1,
        acc.2.2 ++ [(globalX + d.1, globalY + d.2, g (globalX + d.1) (globalY + d.2))])
    else acc
  else acc

/-- An offset becomes a chord candidate exactly when it is in bounds,
unflagged and unrevealed. -/
def chordCandPred (cfg : Config) (g : Grid) (gX gY : Int) (d : Int × Int) : Bool :=
  decide (InBounds cfg (gX + d.1) (gY + d.2)) && !(g (gX + d.1) (gY + d.2)).flagged &&
    !(g (gX + d.1) (gY + d.2)).revealed

/-- The candidate record the scan pushes for an offset. -/
def chordCandEntry (g : Grid) (gX gY : Int) (d : Int × Int) : Int × Int × Cell :=
  (gX + d.1, gY + d.2, g (gX + d.1) (gY + d.2))

/-- Processing of one chord candidate (the body of the reveal loop of
`handleChordClick`): a mine candidate is revealed in place and counted as
exploded; a safe candidate goes through `revealCellWithFlood`. -/
def chordFoldStep (cfg : Config) (st : List CellUpdate × Grid × Int)
    (cand : Int × Int × Cell) : List CellUpdate × Grid × Int :=
  if cand.2.2.hasMine then
    (st.1 ++ [chunkRecordOf cfg cand.1 cand.2.1], setRevealed st.2.1 cand.1 cand.2.1,
      st.2.2 + 1)
  else
    (st.1 ++ (revealCellWithFlood cfg st.2.1 cand.1 cand.2.1).1,
      (revealCellWithFlood cfg st.2.1 cand.1 cand.2.1).2, st.2.2)

/-- `handleChordClick(cx, cy, x, y)` of src/server.js. -/
def handleChordClick (cfg : Config) (g : Grid) (bombsExploded : Int) (cx cy x y : Int) :
    List CellUpdate × Grid × Int :=
  let globalX := cx * cfg.CHUNK_SIZE + x
  let globalY := cy * cfg.CHUNK_SIZE + y
  if globalX < 0 ∨ globalX ≥ cfg.GRID_WIDTH ∨ globalY < 0 ∨ globalY ≥ cfg.GRID_HEIGHT then
    ([], g, bombsExploded)
  else
    let cell := g globalX globalY
    if !cell.revealed || cell.adjacentMines == 0 then ([], g, bombsExploded)
    else
      let scan := chordScan cfg g globalX globalY
      if scan.1 + scan.2.1 = cell.adjacentMines then
        scan.2.2.foldl (chordFoldStep cfg) ([], g, bombsExploded)
      else ([], g, bombsExploded)

/-- The `flag_cell` socket handler of src/server.js.  The boolean records
whether a `cell_update` was emitted (i.e. whether the toggle happened). -/
def flagCell (cfg : Config) (g : Grid) (cx cy x y : Int) : Grid × Bool :=
  let globalX := cx * cfg.CHUNK_SIZE + x
  let globalY := cy * cfg.CHUNK_SIZE + y
  if globalX < 0 ∨ globalX ≥ cfg.GRID_WIDTH ∨ globalY < 0 ∨ globalY ≥ cfg.GRID_HEIGHT then
    (g, false)
  else
    let cell := g globalX globalY
    if cell.revealed then (g, false)
    else (toggleFlagged g globalX globalY, true)

/-! Specification-level vocabulary used by the claims. -/

/-- All in-bounds coordinates of the world, as a finite set. -/
def boundsFinset (cfg : Config) : Finset (Int × Int) :=
  Finset.Icc 0 (cfg.GRID_WIDTH - 1) ×ˢ Finset.Icc 0 (cfg.GRID_HEIGHT - 1)

/-- The number of mines of the world. -/
def minesCard (cfg : Config) (g : Grid) : Nat :=
  ((boundsFinset cfg).filter (fun c => (g c.1 c.2).hasMine = true)).card

/-- The specification's adjacency value: the number of in-bounds
8-neighbors of `(x, y)` carrying a mine (the eight neighbor coordinates
are pairwise distinct, so counting over the list counts each neighbor
once). -/
def adjacentMineSpec (cfg : Config) (g : Grid) (x y : Int) : Nat :=
  (neighborOffsets.map (fun d => (x + d.1, y + d.2))).countP
    (fun c => decide (InBounds cfg c.1 c.2 ∧ (g c.1 c.2).hasMine = true))

/-- Mutation never touches `hasMine`, `adjacentMines` or `flagged`. -/
def gridFrame (g g' : Grid) : Prop :=
  ∀ a b : Int, (g' a b).hasMine = (g a b).hasMine ∧
    (g' a b).adjacentMines = (g a b).adjacentMines ∧
    (g' a b).flagged = (g a b).flagged

/-- `revealed` only ever goes from `false` to `true`. -/
def gridMono (g g' : Grid) : Prop :=
  ∀ a b : Int, (g a b).revealed = true → (g' a b).revealed = true

/-- The records `δ` are exactly the cells whose `revealed` flag flipped
from `false` (and unflagged) in `g` to `true` in `g'`, each named once,
all in bounds. -/
def NewRecords (cfg : Config) (g g' : Grid) (δ : List CellUpdate) : Prop :=
  (globList cfg δ).Nodup ∧
  (∀ c ∈ globList cfg δ, InBounds cfg c.1 c.2 ∧ (g c.1 c.2).revealed = false ∧
    (g c.1 c.2).flagged = false ∧ (g' c.1 c.2).revealed = true) ∧
  (∀ c : Int × Int, (g c.1 c.2).revealed = false → (g' c.1 c.2).revealed = true →
    c ∈ globList cfg δ)

/-- The compound before/after relation every flood-fill step satisfies. -/
def FloodRel (cfg : Config) (s s' : FloodState) : Prop :=
  gridFrame s.grid s'.grid ∧ gridMono s.grid s'.grid ∧ s.visited ⊆ s'.visited ∧
  ∃ δ, s'.acc = s.acc ++ δ ∧ NewRecords cfg s.grid s'.grid δ

/-- Every visited coordinate is already revealed or flagged. -/
def visitedInv (s : FloodState) : Prop :=
  ∀ c ∈ s.visited, (s.grid c.1 c.2).revealed = true ∨ (s.grid c.1 c.2).flagged = true

/-- A coordinate set the flood fill can never escape: it contains, for
each of its zero-adjacency mine-free members, every in-bounds mine-free
neighbor. -/
def ClosedUnder (cfg : Config) (g : Grid) (S : Set (Int × Int)) : Prop :=
  ∀ c ∈ S, (g c.1 c.2).adjacentMines = 0 → (g c.1 c.2).hasMine = false →
    ∀ d ∈ neighborOffsets, InBounds cfg (c.1 + d.1) (c.2 + d.2) →
      (g (c.1 + d.1) (c.2 + d.2)).hasMine = false → (c.1 + d.1, c.2 + d.2) ∈ S

/-- The in-bounds cells directly bordering a region `R` (8-adjacent to a
member, not themselves members). -/
def borderOf (cfg : Config) (R : Finset (Int × Int)) : Finset (Int × Int) :=
  (R.biUnion (fun c => neighborOffsets.toFinset.image (fun d => (c.1 + d.1, c.2 + d.2)))).filter
    (fun c => c ∉ R ∧ InBounds cfg c.1 c.2)

/-- The bordering cells a reveal may actually flip: the unrevealed,
unflagged ones. -/
def eligibleBorder (cfg : Config) (g : Grid) (R : Finset (Int × Int)) : Finset (Int × Int) :=
  (borderOf cfg R).filter (fun c => (g c.1 c.2).revealed = false ∧ (g c.1 c.2).flagged = false)

/-- `R` is a region of in-bounds, zero-adjacency, mine-free, unrevealed,
unflagged cells. -/
def ZeroRegion (cfg : Config) (g : Grid) (R : Finset (Int × Int)) : Prop :=
  ∀ c ∈ R, InBounds cfg c.1 c.2 ∧ (g c.1 c.2).adjacentMines = 0 ∧
    (g c.1 c.2).hasMine = false ∧ (g c.1 c.2).revealed = false ∧ (g c.1 c.2).flagged = false

/-- Every cell bordering the region shows a number (positive adjacency)
and carries no mine. -/
def NumberedBorder (cfg : Config) (g : Grid) (R : Finset (Int × Int)) : Prop :=
  ∀ c ∈ borderOf cfg R, 0 < (g c.1 c.2).adjacentMines ∧ (g c.1 c.2).hasMine = false

/-- One 8-adjacency step inside the region `R`. -/
def AdjStep (R : Finset (Int × Int)) (a b : Int × Int) : Prop :=
  a ∈ R ∧ b ∈ R ∧ (b.1 - a.1, b.2 - a.2) ∈ neighborOffsets

/-- `R` is 8-connected when walked from `start`. -/
def ConnectedFrom (R : Finset (Int × Int)) (start : Int × Int) : Prop :=
  ∀ c ∈ R, Relation.ReflTransGen (AdjStep R) start c

/-- Entry `(x, y)` of an extracted chunk (row-major, as the source builds
`chunk[y][x]`). -/
def extractEntry (r : Except Unit (List (List ChunkCell))) (x y : Nat) : Option ChunkCell :=
  match r with
  | .error _ => none
  | .ok ch => (ch.get? y).bind (fun row => row.get? x)

/-- Entry `(x, y)` of the chunk a `get_chunk` request returned. -/
def chunkEntry (r : Except Unit (ChunkMap × List (List ChunkCell))) (x y : Nat) :
    Option ChunkCell :=
  match r with
  | .error _ => none
  | .ok p => (p.2.get? y).bind (fun row => row.get? x)

/-- The chunk map a `get_chunk` request left behind. -/
def chunkMapOf (r : Except Unit (ChunkMap × List (List ChunkCell))) : ChunkMap :=
  match r with
  | .error _ => []
  | .ok p => p.1

/-- The value an extraction entry holds when no crash is possible
(non-negative coordinates): a copy of the current cell when inside the
world, a default placeholder otherwise. -/
def extractCellValue (cfg : Config) (g : Grid) (gx gy : Int) : ChunkCell :=
  if gx < cfg.GRID_WIDTH ∧ gy < cfg.GRID_HEIGHT then .cell (g gx gy)
  else .cell { revealed := false, hasMine := false, adjacentMines := 0, flagged := false }

/-! Concrete fixtures for witnesses and counterexamples. -/

/-- A small world: chunk edge 2, 4×4 cells. -/
def cfg4 : Config := ⟨2, 4, 4⟩

/-- A tiny world: chunk edge 2, 2×2 cells. -/
def cfg22 : Config := ⟨2, 2, 2⟩

/-- A degenerate configuration with zero width. -/
def cfgZeroW : Config := ⟨100, 0, 5⟩

/-- The all-default grid. -/
def gZero : Grid := fun _ _ => Cell.init

/-- A 4×4 fixture: `(0, 0)` is a zero-adjacency safe cell, every other
cell shows a 1; no mines, nothing revealed or flagged. -/
def testGridA : Grid := fun x y =>
  if x = 0 ∧ y = 0 then ⟨false, false, 0, false⟩ else ⟨false, false, 1, false⟩

/-- A 4×4 chord fixture: `(1, 1)` is revealed showing 1, `(0, 0)` is a
flagged mine, everything else is an unrevealed safe 1-cell. -/
def testGridB : Grid := fun x y =>
  if x = 1 ∧ y = 1 then ⟨true, false, 1, false⟩
  else if x = 0 ∧ y = 0 then ⟨false, true, 1, true⟩
  else ⟨false, false, 1, false⟩

/-- A pick stream placing two mines at `(0, 0)` and `(3, 3)`. -/
def initStream : List (Int × Int) := [(0, 0), (3, 3)]

/-- The 4×4 world initialized at mine percentage 1/8 (two mines, placed
at `(0, 0)` and `(3, 3)` by `initStream`; spelled out without rationals
so that it evaluates). -/
def gInitTest : Grid :=
  calculateAdjacentCountsForCompleteGrid cfg4 (setMine (setMine gZero 0 0) 3 3)

/-! Basic lemmas. -/

theorem not_inBounds_iff (cfg : Config) (x y : Int) :
    ¬ InBounds cfg x y ↔
      (x < 0 ∨ x ≥ cfg.GRID_WIDTH ∨ y < 0 ∨ y ≥ cfg.GRID_HEIGHT) := by
  unfold InBounds; omega

theorem mapM_error_head {α β : Type} (f : α → Except Unit β) (a : α) (l : List α)
    (h : f a = .error ()) : (a :: l).mapM f = .error () := by
  rw [List.mapM_cons, h]
  rfl

theorem mapM_ok_of_forall {α β : Type} (f : α → Except Unit β) (v : α → β) :
    ∀ l : List α, (∀ a ∈ l, f a = .ok (v a)) → l.mapM f = .ok (l.map v) := by
  intro l
  induction l with
  | nil =>
    intro _
    rw [List.mapM_nil]
    rfl
  | cons a t ih =>
    intro h
    have ha := h a (by simp)
    have ht := ih (fun b hb => h b (by simp [hb]))
    rw [List.mapM_cons, ha, ht]
    rfl

/-- Claim C3: total no-op failure policy.  Each of reveal, toggleFlag
(the `flag_cell` handler) and chordReveal is a total function of integer
inputs in this embedding (never throws: every grid access in the source
is behind the bounds check modelled here); an out-of-bounds coordinate is
a silent no-op for all three, an already-revealed target is a no-op for
reveal and toggleFlag, and a flagged target is a no-op for reveal — each
time the returned list is empty and the whole state is unchanged. -/
theorem C3_total_noop_policy :
    ∀ (cfg : Config) (g : Grid) (bombs cx cy x y : Int),
      (¬ InBounds cfg (cx * cfg.CHUNK_SIZE + x) (cy * cfg.CHUNK_SIZE + y) →
        revealCell cfg g bombs cx cy x y = ([], g, bombs) ∧
        handleChordClick cfg g bombs cx cy x y = ([], g, bombs) ∧
        flagCell cfg g cx cy x y = (g, false)) ∧
      ((g (cx * cfg.CHUNK_SIZE + x) (cy * cfg.CHUNK_SIZE + y)).revealed = true →
        revealCell cfg g bombs cx cy x y = ([], g, bombs) ∧
        flagCell cfg g cx cy x y = (g, false)) ∧
      ((g (cx * cfg.CHUNK_SIZE + x) (cy * cfg.CHUNK_SIZE + y)).flagged = true →
        revealCell cfg g bombs cx cy x y = ([], g, bombs)) := by
  intro cfg g bombs cx cy x y
  refine ⟨fun h => ?_, fun h => ?_, fun h => ?_⟩
  · have hb := (not_inBounds_iff cfg _ _).mp h
    exact ⟨by unfold revealCell; rw [if_pos hb],
      by unfold handleChordClick; rw [if_pos hb],
      by unfold flagCell; rw [if_pos hb]⟩
  · by_cases hb : cx * cfg.CHUNK_SIZE + x < 0 ∨ cx * cfg.CHUNK_SIZE + x ≥ cfg.GRID_WIDTH ∨
        cy * cfg.CHUNK_SIZE + y < 0 ∨ cy * cfg.CHUNK_SIZE + y ≥ cfg.GRID_HEIGHT
    · exact ⟨by unfold revealCell; rw [if_pos hb], by unfold flagCell; rw [if_pos hb]⟩
    · constructor
      · unfold revealCell
        rw [if_neg hb]
        simp [h]
      · unfold flagCell
        rw [if_neg hb]
        simp [h]
  · by_cases hb : cx * cfg.CHUNK_SIZE + x < 0 ∨ cx * cfg.CHUNK_SIZE + x ≥ cfg.GRID_WIDTH ∨
        cy * cfg.CHUNK_SIZE + y < 0 ∨ cy * cfg.CHUNK_SIZE + y ≥ cfg.GRID_HEIGHT
    · unfold revealCell; rw [if_pos hb]
    · unfold revealCell
      rw [if_neg hb]
      simp [h]

/-- Witness for C3 at concrete inputs: an out-of-bounds reveal, chord and
flag on the chord fixture, a reveal and a flag aimed at the revealed cell
`(1, 1)`, and a reveal aimed at the flagged cell `(0, 0)`. -/
theorem C3_total_noop_policy_witness :
    revealCell cfg4 testGridB 0 0 0 (-1) 0 = ([], testGridB, 0) ∧
    handleChordClick cfg4 testGridB 0 0 0 (-1) 0 = ([], testGridB, 0) ∧
    flagCell cfg4 testGridB 0 0 (-1) 0 = (testGridB, false) ∧
    revealCell cfg4 testGridB 0 0 0 1 1 = ([], testGridB, 0) ∧
    flagCell cfg4 testGridB 0 0 1 1 = (testGridB, false) ∧
    revealCell cfg4 testGridB 0 0 0 0 0 = ([], testGridB, 0) := by
  have h1 := (C3_total_noop_policy cfg4 testGridB 0 0 0 (-1) 0).1 (by decide)
  have h2 := (C3_total_noop_policy cfg4 testGridB 0 0 0 1 1).2.1 (by decide)
  have h3 := (C3_total_noop_policy cfg4 testGridB 0 0 0 0 0).2.2 (by decide)
  exact ⟨h1.1, h1.2.1, h1.2.2, h2.1, h2.2, h3⟩

/-- Counterexample to claim C5: the source performs no validation at all.
With width 0 (an invalid dimension) initialization succeeds and returns a
grid instead of failing with InvalidDimensions. -/
theorem C5_counterexample :
    (initializeCompleteGrid cfgZeroW (17/100) []).isSome = true := by
  have h : mineCountOf cfgZeroW (17/100) = 0 := by
    simp [mineCountOf, cfgZeroW]
  simp [initializeCompleteGrid, placeMinesInCompleteGrid, h]

/-- Claim C7 (the code's bug exhibited): chunk extraction at the deployed
configuration crashes for a negative chunk row — for every grid, the
request `(cx, cy) = (0, -1)` reads `completeGrid[-100]`, which is
`undefined`, and throws — and for a negative chunk column the request
`(cx, cy) = (-1, 0)` produces a field-less object (spread of `undefined`)
instead of the synthesized placeholder cell the claim requires. -/
theorem C7_extract_throws :
    (∀ g : Grid, extractChunkFromCompleteGrid defaultConfig g 0 (-1) = .error ()) ∧
    (∀ g : Grid,
      extractEntry (extractChunkFromCompleteGrid defaultConfig g (-1) 0) 0 0 =
        some .emptyObj) := by
  constructor
  · intro g
    simp only [extractChunkFromCompleteGrid]
    rw [show defaultConfig.CHUNK_SIZE.toNat = 99 + 1 from rfl, List.range_succ_eq_map]
    refine mapM_error_head _ _ _ (mapM_error_head _ _ _ ?_)
    unfold extractCellJs
    rw [if_pos (by decide), if_neg (by decide)]
  · intro g
    simp only [extractChunkFromCompleteGrid]
    have hrow : ∀ y ∈ List.range defaultConfig.CHUNK_SIZE.toNat,
        (List.range defaultConfig.CHUNK_SIZE.toNat).mapM (fun (x : Nat) =>
          extractCellJs defaultConfig g ((-1) * defaultConfig.CHUNK_SIZE + (x : Int))
            (0 * defaultConfig.CHUNK_SIZE + (y : Int))) =
        .ok ((List.range defaultConfig.CHUNK_SIZE.toNat).map (fun _ => ChunkCell.emptyObj)) := by
      intro y hy
      apply mapM_ok_of_forall
      intro a ha
      have hy' : (y : Int) < 100 := by exact_mod_cast List.mem_range.mp hy
      have ha' : (a : Int) < 100 := by exact_mod_cast List.mem_range.mp ha
      have hy0 : (0 : Int) ≤ (y : Int) := Int.ofNat_nonneg y
      have ha0 : (0 : Int) ≤ (a : Int) := Int.ofNat_nonneg a
      unfold extractCellJs
      rw [if_pos (by simp only [defaultConfig]; omega)]
      rw [if_pos (by simp only [defaultConfig]; omega)]
      rw [if_neg (by simp only [defaultConfig]; omega)]
    rw [mapM_ok_of_forall _
      (fun _ => (List.range defaultConfig.CHUNK_SIZE.toNat).map (fun _ => ChunkCell.emptyObj))
      (List.range defaultConfig.CHUNK_SIZE.toNat) hrow]
    unfold extractEntry
    rw [show defaultConfig.CHUNK_SIZE.toNat = 99 + 1 from rfl, List.range_succ_eq_map]
    simp

/-! Mine-placement lemmas. -/

theorem mem_boundsFinset (cfg : Config) (c : Int × Int) :
    c ∈ boundsFinset cfg ↔ InBounds cfg c.1 c.2 := by
  unfold boundsFinset InBounds
  rw [Finset.mem_product, Finset.mem_Icc, Finset.mem_Icc]
  omega

theorem minesCard_le_bounds (cfg : Config) (g : Grid) :
    minesCard cfg g ≤ (boundsFinset cfg).card :=
  Finset.card_filter_le _ _

theorem minesCard_setMine (cfg : Config) (g : Grid) (x y : Int)
    (hin : InBounds cfg x y) (hfresh : (g x y).hasMine = false) :
    minesCard cfg (setMine g x y) = minesCard cfg g + 1 := by
  unfold minesCard
  have hset : (boundsFinset cfg).filter (fun c => ((setMine g x y) c.1 c.2).hasMine = true) =
      insert (x, y) ((boundsFinset cfg).filter (fun c => (g c.1 c.2).hasMine = true)) := by
    ext ⟨a, b⟩
    simp only [Finset.mem_filter, Finset.mem_insert, mem_boundsFinset, Prod.mk.injEq]
    unfold setMine
    by_cases hc : a = x ∧ b = y
    · obtain ⟨rfl, rfl⟩ := hc
      simp [hin]
    · rw [if_neg hc]
      simp [hc]
  rw [hset, Finset.card_insert_of_not_mem]
  simp only [Finset.mem_filter, not_and]
  intro _
  simp [hfresh]

theorem calc_pointwise (cfg : Config) (g : Grid) (a b : Int) :
    (calculateAdjacentCountsForCompleteGrid cfg g a b).hasMine = (g a b).hasMine ∧
    (calculateAdjacentCountsForCompleteGrid cfg g a b).revealed = (g a b).revealed ∧
    (calculateAdjacentCountsForCompleteGrid cfg g a b).flagged = (g a b).flagged := by
  unfold calculateAdjacentCountsForCompleteGrid
  split <;> exact ⟨rfl, rfl, rfl⟩

theorem minesCard_calc (cfg : Config) (g : Grid) :
    minesCard cfg (calculateAdjacentCountsForCompleteGrid cfg g) = minesCard cfg g := by
  unfold minesCard
  congr 1
  apply Finset.filter_congr
  intro c _
  rw [(calc_pointwise cfg g c.1 c.2).1]

theorem placeMines_count (cfg : Config) :
    ∀ (stream : List (Int × Int)) (g : Grid) (placed target : Int) (gout : Grid),
      (∀ c ∈ stream, InBounds cfg c.1 c.2) →
      (minesCard cfg g : Int) = placed →
      placed ≤ target →
      placeMinesInCompleteGrid g placed target stream = some gout →
      (minesCard cfg gout : Int) = target := by
  intro stream
  induction stream with
  | nil =>
    intro g placed target gout _ hcard hle hout
    unfold placeMinesInCompleteGrid at hout
    by_cases h : placed < target
    · rw [if_pos h] at hout
      cases hout
    · rw [if_neg h] at hout
      injection hout with h2
      subst h2
      omega
  | cons pick rest ih =>
    intro g placed target gout hstream hcard hle hout
    unfold placeMinesInCompleteGrid at hout
    by_cases h : placed < target
    · rw [if_pos h] at hout
      by_cases hm : (g pick.1 pick.2).hasMine = true
      · rw [if_pos hm] at hout
        exact ih g placed target gout (fun c hc => hstream c (by simp [hc])) hcard hle hout
      · rw [if_neg hm] at hout
        have hfresh : (g pick.1 pick.2).hasMine = false := by simpa using hm
        have hin : InBounds cfg pick.1 pick.2 := hstream pick (by simp)
        have hnew : (minesCard cfg (setMine g pick.1 pick.2) : Int) = placed + 1 := by
          rw [minesCard_setMine cfg g pick.1 pick.2 hin hfresh]
          push_cast
          omega
        exact ih _ (placed + 1) target gout (fun c hc => hstream c (by simp [hc])) hnew
          (by omega) hout
    · rw [if_neg h] at hout
      injection hout with h2
      subst h2
      omega

theorem placeMines_none (cfg : Config) :
    ∀ (stream : List (Int × Int)) (g : Grid) (placed target : Int),
      (∀ c ∈ stream, InBounds cfg c.1 c.2) →
      placed ≤ (minesCard cfg g : Int) →
      ((boundsFinset cfg).card : Int) < target →
      placeMinesInCompleteGrid g placed target stream = none := by
  intro stream
  induction stream with
  | nil =>
    intro g placed target _ hcard htarget
    unfold placeMinesInCompleteGrid
    have hle := minesCard_le_bounds cfg g
    have hle' : (minesCard cfg g : Int) ≤ ((boundsFinset cfg).card : Int) := by
      exact_mod_cast hle
    rw [if_pos (by omega)]
  | cons pick rest ih =>
    intro g placed target hstream hcard htarget
    unfold placeMinesInCompleteGrid
    have hle := minesCard_le_bounds cfg g
    have hle' : (minesCard cfg g : Int) ≤ ((boundsFinset cfg).card : Int) := by
      exact_mod_cast hle
    rw [if_pos (by omega)]
    by_cases hm : (g pick.1 pick.2).hasMine = true
    · rw [if_pos hm]
      exact ih g placed target (fun c hc => hstream c (by simp [hc])) hcard htarget
    · rw [if_neg hm]
      have hfresh : (g pick.1 pick.2).hasMine = false := by simpa using hm
      have hin : InBounds cfg pick.1 pick.2 := hstream pick (by simp)
      refine ih _ (placed + 1) target (fun c hc => hstream c (by simp [hc])) ?_ htarget
      rw [minesCard_setMine cfg g pick.1 pick.2 hin hfresh]
      push_cast
      omega

/-- Claim C8: exact mine count.  For every initialized world with valid
dimensions and a valid mine percentage (and picks in range, as
`Math.floor(Math.random() * dimension)` produces), the number of cells
with `hasMine = true` is exactly `round(width · height · minePercentage)`;
placement is without replacement, so no cell ever holds two mines (mines
are a set of cells, counted once each by `minesCard`). -/
theorem C8_exact_mine_count :
    ∀ (cfg : Config) (p : ℚ) (stream : List (Int × Int)) (g : Grid),
      0 < cfg.GRID_WIDTH → 0 < cfg.GRID_HEIGHT → 0 ≤ p → p < 1 →
      (∀ c ∈ stream, InBounds cfg c.1 c.2) →
      initializeCompleteGrid cfg p stream = some g →
      (minesCard cfg g : Int) = mineCountOf cfg p := by
  intro cfg p stream g hW hH hp hp1 hstream hinit
  unfold initializeCompleteGrid at hinit
  cases hpm : placeMinesInCompleteGrid (fun _ _ => Cell.init) 0 (mineCountOf cfg p) stream with
  | none =>
    rw [hpm] at hinit
    cases hinit
  | some g1 =>
    rw [hpm] at hinit
    injection hinit with h2
    subst h2
    rw [minesCard_calc]
    have h0 : (minesCard cfg (fun _ _ => Cell.init) : Int) = 0 := by
      unfold minesCard
      simp [Cell.init]
    have htgt : (0 : Int) ≤ mineCountOf cfg p := by
      unfold mineCountOf
      rw [round_eq]
      apply Int.floor_nonneg.mpr
      have h1 : (0 : ℚ) ≤ ((cfg.GRID_WIDTH * cfg.GRID_HEIGHT : Int) : ℚ) := by
        have h2 : (0 : Int) ≤ cfg.GRID_WIDTH * cfg.GRID_HEIGHT :=
          le_of_lt (mul_pos hW hH)
        exact_mod_cast h2
      have h3 := mul_nonneg h1 hp
      linarith
    exact placeMines_count cfg stream _ 0 (mineCountOf cfg p) g1 hstream h0 htgt hpm

/-- Witness for C8: the 4×4 world at percentage 1/8 initialized from
`initStream` holds exactly `round(16/8) = 2` mines. -/
theorem C8_exact_mine_count_witness :
    initializeCompleteGrid cfg4 (1/8) initStream = some gInitTest ∧
    (minesCard cfg4 gInitTest : Int) = mineCountOf cfg4 (1/8) := by
  have hmc : mineCountOf cfg4 (1/8) = 2 := by norm_num [mineCountOf, cfg4]
  have hinit : initializeCompleteGrid cfg4 (1/8) initStream = some gInitTest := by
    unfold initializeCompleteGrid
    rw [hmc]
    rfl
  exact ⟨hinit, C8_exact_mine_count cfg4 (1/8) initStream gInitTest (by decide) (by decide)
    (by norm_num) (by norm_num) (by decide) hinit⟩

/-- Amendment of claim C5 (proved): initialization validates nothing.
With width 0 — an invalid dimension — it succeeds for every percentage
and pick stream (the mine target rounds to 0), and with a mine percentage
outside [0, 1) whose target exceeds the cell count (here 3/2 on a 2×2
world) the rejection-sampling loop can never finish: it diverges instead
of failing with InvalidMinePercentage. -/
theorem C5_no_validation :
    (∀ (p : ℚ) (stream : List (Int × Int)),
      (initializeCompleteGrid cfgZeroW p stream).isSome = true) ∧
    (∀ stream : List (Int × Int), (∀ c ∈ stream, InBounds cfg22 c.1 c.2) →
      initializeCompleteGrid cfg22 (3/2) stream = none) := by
  constructor
  · intro p stream
    have hmc : mineCountOf cfgZeroW p = 0 := by
      simp [mineCountOf, cfgZeroW]
    unfold initializeCompleteGrid
    rw [hmc]
    cases stream with
    | nil => rfl
    | cons a t => rfl
  · intro stream hstream
    have hmc : mineCountOf cfg22 (3/2) = 6 := by norm_num [mineCountOf, cfg22]
    have hcard : ((boundsFinset cfg22).card : Int) = 4 := by decide
    have hnone : placeMinesInCompleteGrid (fun _ _ => Cell.init) 0 (mineCountOf cfg22 (3/2))
        stream = none := by
      apply placeMines_none cfg22 stream _ 0 _ hstream
      · simp [minesCard, Cell.init]
      · rw [hcard, hmc]
        norm_num
    unfold initializeCompleteGrid
    rw [hnone]

/-- Witness for C5's amended statement at concrete inputs. -/
theorem C5_no_validation_witness :
    (initializeCompleteGrid cfgZeroW (1/4) [(1, 1)]).isSome = true ∧
    initializeCompleteGrid cfg22 (3/2) [(0, 0)] = none :=
  ⟨C5_no_validation.1 (1/4) [(1, 1)], C5_no_validation.2 [(0, 0)] (by decide)⟩

/-! Chunk extraction lemmas. -/

theorem extract_ok_of_nonneg (cfg : Config) (g : Grid) (cx cy : Int)
    (hcx : 0 ≤ cx) (hcy : 0 ≤ cy) (hS : 0 ≤ cfg.CHUNK_SIZE) :
    extractChunkFromCompleteGrid cfg g cx cy =
      .ok ((List.range cfg.CHUNK_SIZE.toNat).map (fun (y : Nat) =>
        (List.range cfg.CHUNK_SIZE.toNat).map (fun (x : Nat) =>
          extractCellValue cfg g (cx * cfg.CHUNK_SIZE + (x : Int))
            (cy * cfg.CHUNK_SIZE + (y : Int))))) := by
  simp only [extractChunkFromCompleteGrid]
  apply mapM_ok_of_forall
  intro y _
  apply mapM_ok_of_forall
  intro x _
  have hgx : 0 ≤ cx * cfg.CHUNK_SIZE + (x : Int) := by
    have h1 := mul_nonneg hcx hS
    have h2 := Int.ofNat_nonneg x
    omega
  have hgy : 0 ≤ cy * cfg.CHUNK_SIZE + (y : Int) := by
    have h1 := mul_nonneg hcy hS
    have h2 := Int.ofNat_nonneg y
    omega
  unfold extractCellJs extractCellValue
  by_cases hc : cx * cfg.CHUNK_SIZE + (x : Int) < cfg.GRID_WIDTH ∧
      cy * cfg.CHUNK_SIZE + (y : Int) < cfg.GRID_HEIGHT
  · rw [if_pos hc, if_pos hgy, if_pos hgx, if_pos hc]
  · rw [if_neg hc, if_neg hc]

theorem extract_entry_of_nonneg (cfg : Config) (g : Grid) (cx cy : Int)
    (hcx : 0 ≤ cx) (hcy : 0 ≤ cy) (hS : 0 ≤ cfg.CHUNK_SIZE) (x y : Nat)
    (hx : x < cfg.CHUNK_SIZE.toNat) (hy : y < cfg.CHUNK_SIZE.toNat) :
    extractEntry (extractChunkFromCompleteGrid cfg g cx cy) x y =
      some (extractCellValue cfg g (cx * cfg.CHUNK_SIZE + (x : Int))
        (cy * cfg.CHUNK_SIZE + (y : Int))) := by
  rw [extract_ok_of_nonneg cfg g cx cy hcx hcy hS]
  unfold extractEntry
  simp [List.getElem?_map, List.getElem?_range, hx, hy]

/-- Counterexample to claim C6: on a 2×2 world, request chunk `(0, 0)`,
toggle a flag at `(0, 0)`, then request chunk `(0, 0)` again — the second
request is served from the `gridChunks` cache and still reports the cell
unflagged, although the world grid now has it flagged, so a chunk
requested after a mutation does not reflect that mutation. -/
theorem C6_counterexample :
    ((flagCell cfg22 gZero 0 0 0 0).1 0 0).flagged = true ∧
    chunkEntry (getOrCreateChunk cfg22 (chunkMapOf (getOrCreateChunk cfg22 [] gZero 0 0))
      ((flagCell cfg22 gZero 0 0 0 0).1) 0 0) 0 0 =
      some (.cell ⟨false, false, 0, false⟩) := by decide

/-- Amendment of claim C6 (proved): extraction itself always recomputes
from the current grid — on a cache miss the chunk returned holds, for
every requested position (non-negative chunk coordinates), the value the
grid has at call time — but `getOrCreateChunk` caches the first
extraction under the chunk key and serves the cached value copy on every
later request, so only a never-before-requested chunk reflects earlier
mutations. -/
theorem C6_cache_not_fresh :
    ∀ (cfg : Config) (chunks : ChunkMap) (g : Grid) (cx cy : Int),
      (chunks.lookup (cx, cy) = none →
        getOrCreateChunk cfg chunks g cx cy =
          (extractChunkFromCompleteGrid cfg g cx cy).map
            (fun ch => (((cx, cy), ch) :: chunks, ch))) ∧
      (∀ ch, chunks.lookup (cx, cy) = some ch →
        getOrCreateChunk cfg chunks g cx cy = .ok (chunks, ch)) ∧
      (0 ≤ cx → 0 ≤ cy → 0 ≤ cfg.CHUNK_SIZE → ∀ x y : Nat,
        x < cfg.CHUNK_SIZE.toNat → y < cfg.CHUNK_SIZE.toNat →
        extractEntry (extractChunkFromCompleteGrid cfg g cx cy) x y =
          some (extractCellValue cfg g (cx * cfg.CHUNK_SIZE + (x : Int))
            (cy * cfg.CHUNK_SIZE + (y : Int)))) := by
  intro cfg chunks g cx cy
  refine ⟨fun h => ?_, fun ch h => ?_, fun hcx hcy hS x y hx hy => ?_⟩
  · unfold getOrCreateChunk
    rw [h]
    cases hext : extractChunkFromCompleteGrid cfg g cx cy with
    | error e => simp [Except.map]
    | ok c => simp [Except.map]
  · unfold getOrCreateChunk
    rw [h]
  · exact extract_entry_of_nonneg cfg g cx cy hcx hcy hS x y hx hy

/-- Witness for C6's amended statement: concrete cache-hit staleness and
cache-miss freshness on the 2×2 world. -/
theorem C6_cache_not_fresh_witness :
    getOrCreateChunk cfg22 [((0, 0), [[.cell Cell.init]])] gZero 0 0 =
      .ok ([((0, 0), [[.cell Cell.init]])], [[.cell Cell.init]]) ∧
    extractEntry (extractChunkFromCompleteGrid cfg22 gZero 0 0) 0 0 =
      some (extractCellValue cfg22 gZero 0 0) := by
  constructor
  · exact (C6_cache_not_fresh cfg22 [((0, 0), [[.cell Cell.init]])] gZero 0 0).2.1
      [[.cell Cell.init]] (by decide)
  · have h := (C6_cache_not_fresh cfg22 [] gZero 0 0).2.2 (by decide) (by decide) (by decide)
      0 0 (by decide) (by decide)
    simpa using h

/-! Flood-fill machinery: pointwise update lemmas, the compound
before/after relation, and the generic fold invariant. -/

theorem setRevealed_static (g : Grid) (x y a b : Int) :
    (setRevealed g x y a b).hasMine = (g a b).hasMine ∧
    (setRevealed g x y a b).adjacentMines = (g a b).adjacentMines ∧
    (setRevealed g x y a b).flagged = (g a b).flagged := by
  unfold setRevealed
  split <;> exact ⟨rfl, rfl, rfl⟩

theorem setRevealed_self_revealed (g : Grid) (x y : Int) :
    (setRevealed g x y x y).revealed = true := by
  unfold setRevealed
  rw [if_pos ⟨rfl, rfl⟩]

theorem setRevealed_other (g : Grid) (x y a b : Int) (h : ¬(a = x ∧ b = y)) :
    setRevealed g x y a b = g a b := by
  unfold setRevealed
  rw [if_neg h]

theorem setRevealed_mono (g : Grid) (x y a b : Int) (h : (g a b).revealed = true) :
    (setRevealed g x y a b).revealed = true := by
  unfold setRevealed
  split <;> simp [h]

theorem gridFrame_refl (g : Grid) : gridFrame g g := fun _ _ => ⟨rfl, rfl, rfl⟩

theorem gridFrame_trans {g1 g2 g3 : Grid} (h1 : gridFrame g1 g2) (h2 : gridFrame g2 g3) :
    gridFrame g1 g3 := fun a b =>
  ⟨(h2 a b).1.trans (h1 a b).1, (h2 a b).2.1.trans (h1 a b).2.1,
    (h2 a b).2.2.trans (h1 a b).2.2⟩

theorem gridMono_refl (g : Grid) : gridMono g g := fun _ _ h => h

theorem gridMono_trans {g1 g2 g3 : Grid} (h1 : gridMono g1 g2) (h2 : gridMono g2 g3) :
    gridMono g1 g3 := fun a b h => h2 a b (h1 a b h)

theorem NewRecords_nil (cfg : Config) (g : Grid) : NewRecords cfg g g [] := by
  refine ⟨by simp [globList], by simp [globList], fun c h1 h2 => ?_⟩
  rw [h1] at h2
  exact absurd h2 (by decide)

theorem NewRecords_trans {cfg : Config} {g1 g2 g3 : Grid} {δ1 δ2 : List CellUpdate}
    (hm : gridMono g1 g2) (hf : gridFrame g1 g2) (hm2 : gridMono g2 g3)
    (h1 : NewRecords cfg g1 g2 δ1) (h2 : NewRecords cfg g2 g3 δ2) :
    NewRecords cfg g1 g3 (δ1 ++ δ2) := by
  obtain ⟨hnd1, hmem1, hcomp1⟩ := h1
  obtain ⟨hnd2, hmem2, hcomp2⟩ := h2
  have hglob : globList cfg (δ1 ++ δ2) = globList cfg δ1 ++ globList cfg δ2 := by
    simp [globList]
  refine ⟨?_, ?_, ?_⟩
  · rw [hglob]
    refine List.Nodup.append hnd1 hnd2 (fun a ha1 ha2 => ?_)
    have r1 := (hmem1 a ha1).2.2.2
    have r2 := (hmem2 a ha2).2.1
    rw [r1] at r2
    exact absurd r2 (by decide)
  · rw [hglob]
    intro c hc
    rcases List.mem_append.mp hc with h | h
    · have hh := hmem1 c h
      exact ⟨hh.1, hh.2.1, hh.2.2.1, hm2 c.1 c.2 hh.2.2.2⟩
    · have hh := hmem2 c h
      refine ⟨hh.1, ?_, ?_, hh.2.2.2⟩
      · cases hr : (g1 c.1 c.2).revealed
        · rfl
        · exact absurd (hm c.1 c.2 hr) (by simp [hh.2.1])
      · rw [← (hf c.1 c.2).2.2]
        exact hh.2.2.1
  · intro c h1r h3r
    rw [hglob, List.mem_append]
    cases h2r : (g2 c.1 c.2).revealed
    · exact Or.inr (hcomp2 c h2r h3r)
    · exact Or.inl (hcomp1 c h1r h2r)

theorem FloodRel_refl (cfg : Config) (s : FloodState) : FloodRel cfg s s :=
  ⟨gridFrame_refl _, gridMono_refl _, Finset.Subset.refl _, [], by simp,
    NewRecords_nil cfg s.grid⟩

theorem FloodRel_trans {cfg : Config} {s1 s2 s3 : FloodState}
    (h1 : FloodRel cfg s1 s2) (h2 : FloodRel cfg s2 s3) : FloodRel cfg s1 s3 := by
  obtain ⟨hf1, hm1, hv1, δ1, ha1, hn1⟩ := h1
  obtain ⟨hf2, hm2, hv2, δ2, ha2, hn2⟩ := h2
  exact ⟨gridFrame_trans hf1 hf2, gridMono_trans hm1 hm2, fun a ha => hv2 (hv1 ha),
    δ1 ++ δ2, by rw [ha2, ha1, List.append_assoc],
    NewRecords_trans hm1 hf1 hm2 hn1 hn2⟩

theorem foldl_rel {α σ : Type} (R : σ → σ → Prop)
    (hrefl : ∀ s, R s s) (htrans : ∀ a b c, R a b → R b c → R a c)
    (f : σ → α → σ) (l : List α) (s0 : σ)
    (h : ∀ s a, a ∈ l → R s0 s → R s (f s a)) :
    R s0 (l.foldl f s0) := by
  have aux : ∀ (l' : List α), (∀ a ∈ l', a ∈ l) → ∀ s, R s0 s → R s0 (l'.foldl f s) := by
    intro l'
    induction l' with
    | nil =>
      intro _ s hs
      simpa using hs
    | cons a t ih =>
      intro hsub s hs
      rw [List.foldl_cons]
      exact ih (fun b hb => hsub b (by simp [hb])) (f s a)
        (htrans _ _ _ hs (h s a (hsub a (by simp)) hs))
  exact aux l (fun _ hb => hb) s0 (hrefl s0)

theorem globOf_chunkRecordOf (cfg : Config) (hS : 0 < cfg.CHUNK_SIZE)
    (gx gy : Int) (hgx : 0 ≤ gx) (hgy : 0 ≤ gy) :
    globOf cfg (chunkRecordOf cfg gx gy) = (gx, gy) := by
  show (Int.fdiv gx cfg.CHUNK_SIZE * cfg.CHUNK_SIZE + Int.tmod gx cfg.CHUNK_SIZE,
      Int.fdiv gy cfg.CHUNK_SIZE * cfg.CHUNK_SIZE + Int.tmod gy cfg.CHUNK_SIZE) = (gx, gy)
  rw [Int.fdiv_eq_ediv _ hS.le, Int.fdiv_eq_ediv _ hS.le,
    Int.tmod_eq_emod hgx hS.le, Int.tmod_eq_emod hgy hS.le, Prod.mk.injEq]
  constructor
  · rw [mul_comm]
    exact Int.ediv_add_emod gx cfg.CHUNK_SIZE
  · rw [mul_comm]
    exact Int.ediv_add_emod gy cfg.CHUNK_SIZE

theorem flood_zero (cfg : Config) (s : FloodState) (gx gy : Int) :
    flood cfg 0 s gx gy = s := rfl

theorem flood_succ (cfg : Config) (fuel : Nat) (s : FloodState) (gx gy : Int) :
    flood cfg (fuel + 1) s gx gy =
      if (gx, gy) ∈ s.visited then s
      else if (s.grid gx gy).revealed || (s.grid gx gy).flagged then
        ⟨s.grid, insert (gx, gy) s.visited, s.acc⟩
      else if (s.grid gx gy).adjacentMines == 0 && !(s.grid gx gy).hasMine then
        neighborOffsets.foldl (floodStep cfg (flood cfg fuel) gx gy)
          ⟨setRevealed s.grid gx gy, insert (gx, gy) s.visited,
            s.acc ++ [chunkRecordOf cfg gx gy]⟩
      else ⟨setRevealed s.grid gx gy, insert (gx, gy) s.visited,
        s.acc ++ [chunkRecordOf cfg gx gy]⟩ := rfl

theorem FloodRel_reveal_step (cfg : Config) (hS : 0 < cfg.CHUNK_SIZE) (s : FloodState)
    (gx gy : Int) (hin : InBounds cfg gx gy)
    (hrev : (s.grid gx gy).revealed = false) (hfla : (s.grid gx gy).flagged = false) :
    FloodRel cfg s ⟨setRevealed s.grid gx gy, insert (gx, gy) s.visited,
      s.acc ++ [chunkRecordOf cfg gx gy]⟩ := by
  have hglob : globList cfg [chunkRecordOf cfg gx gy] = [(gx, gy)] := by
    unfold globList
    rw [List.map_cons, List.map_nil, globOf_chunkRecordOf cfg hS gx gy hin.1 hin.2.2.1]
  refine ⟨fun a b => setRevealed_static s.grid gx gy a b,
    fun a b h => setRevealed_mono s.grid gx gy a b h,
    Finset.subset_insert _ _, [chunkRecordOf cfg gx gy], rfl, ?_, ?_, ?_⟩
  · rw [hglob]
    exact List.nodup_singleton _
  · rw [hglob]
    intro c hc
    rw [List.mem_singleton] at hc
    subst hc
    exact ⟨hin, hrev, hfla, setRevealed_self_revealed s.grid gx gy⟩
  · intro c h1r h2r
    have h2r' : (setRevealed s.grid gx gy c.1 c.2).revealed = true := h2r
    rw [hglob, List.mem_singleton]
    by_contra hne
    have hne' : ¬(c.1 = gx ∧ c.2 = gy) := by
      intro hand
      exact hne (Prod.ext hand.1 hand.2)
    rw [setRevealed_other s.grid gx gy c.1 c.2 hne'] at h2r'
    rw [h1r] at h2r'
    exact absurd h2r' (by decide)

theorem flood_rel (cfg : Config) (hS : 0 < cfg.CHUNK_SIZE) :
    ∀ (fuel : Nat) (s : FloodState) (gx gy : Int),
      InBounds cfg gx gy → FloodRel cfg s (flood cfg fuel s gx gy) := by
  intro fuel
  induction fuel with
  | zero =>
    intro s gx gy _
    exact FloodRel_refl cfg s
  | succ fuel ih =>
    intro s gx gy hin
    rw [flood_succ]
    by_cases hv : (gx, gy) ∈ s.visited
    · rw [if_pos hv]
      exact FloodRel_refl cfg s
    · rw [if_neg hv]
      by_cases hrf : ((s.grid gx gy).revealed || (s.grid gx gy).flagged) = true
      · rw [if_pos hrf]
        exact ⟨gridFrame_refl _, gridMono_refl _, Finset.subset_insert _ _, [], by simp,
          NewRecords_nil cfg s.grid⟩
      · rw [if_neg hrf]
        simp only [Bool.or_eq_true, not_or, Bool.not_eq_true] at hrf
        obtain ⟨hrev, hfla⟩ := hrf
        have hstep := FloodRel_reveal_step cfg hS s gx gy hin hrev hfla
        by_cases hz : ((s.grid gx gy).adjacentMines == 0 && !(s.grid gx gy).hasMine) = true
        · rw [if_pos hz]
          refine FloodRel_trans hstep ?_
          refine foldl_rel (FloodRel cfg) (FloodRel_refl cfg) (fun a b c => FloodRel_trans)
            _ neighborOffsets _ (fun t d _ _ => ?_)
          unfold floodStep
          by_cases hb : 0 ≤ gx + d.1 ∧ gx + d.1 < cfg.GRID_WIDTH ∧ 0 ≤ gy + d.2 ∧
              gy + d.2 < cfg.GRID_HEIGHT
          · rw [if_pos hb]
            by_cases he : (!(t.grid (gx + d.1) (gy + d.2)).revealed &&
                !(t.grid (gx + d.1) (gy + d.2)).flagged &&
                !(t.grid (gx + d.1) (gy + d.2)).hasMine) = true
            · rw [if_pos he]
              exact ih t (gx + d.1) (gy + d.2) hb
            · rw [if_neg he]
              exact FloodRel_refl cfg t
          · rw [if_neg hb]
            exact FloodRel_refl cfg t
        · rw [if_neg hz]
          exact hstep

theorem ClosedUnder_frame {cfg : Config} {g g' : Grid} {S : Set (Int × Int)}
    (h : ClosedUnder cfg g S) (hf : gridFrame g g') : ClosedUnder cfg g' S := by
  intro c hc ha hm d hd hb hm2
  exact h c hc ((hf c.1 c.2).2.1.symm.trans ha) ((hf c.1 c.2).1.symm.trans hm) d hd hb
    ((hf (c.1 + d.1) (c.2 + d.2)).1.symm.trans hm2)

/-- The flood fill never reveals a cell outside a set that contains the
start and is closed under stepping from its zero-adjacency mine-free
members to in-bounds mine-free neighbors. -/
theorem flood_sound (cfg : Config) (hS : 0 < cfg.CHUNK_SIZE) (S : Set (Int × Int)) :
    ∀ (fuel : Nat) (s : FloodState) (gx gy : Int),
      InBounds cfg gx gy → (gx, gy) ∈ S → ClosedUnder cfg s.grid S →
      ∀ c : Int × Int, (s.grid c.1 c.2).revealed = false →
        ((flood cfg fuel s gx gy).grid c.1 c.2).revealed = true → c ∈ S := by
  intro fuel
  induction fuel with
  | zero =>
    intro s gx gy _ _ _ c h1 h2
    rw [flood_zero] at h2
    rw [h1] at h2
    exact absurd h2 (by decide)
  | succ fuel ih =>
    intro s gx gy hin hgS hcl c h1 h2
    rw [flood_succ] at h2
    by_cases hv : (gx, gy) ∈ s.visited
    · rw [if_pos hv] at h2
      rw [h1] at h2
      exact absurd h2 (by decide)
    · rw [if_neg hv] at h2
      by_cases hrf : ((s.grid gx gy).revealed || (s.grid gx gy).flagged) = true
      · rw [if_pos hrf] at h2
        have h2' : (s.grid c.1 c.2).revealed = true := h2
        rw [h1] at h2'
        exact absurd h2' (by decide)
      · rw [if_neg hrf] at h2
        by_cases hz : ((s.grid gx gy).adjacentMines == 0 && !(s.grid gx gy).hasMine) = true
        · rw [if_pos hz] at h2
          simp only [Bool.and_eq_true, beq_iff_eq, Bool.not_eq_true'] at hz
          obtain ⟨hadj0, hmine0⟩ := hz
          -- Invariant along the neighbor fold: frame, mono, and
          -- "newly revealed cells lie in S".
          have hfold :
              (fun (u u' : FloodState) => gridFrame u.grid u'.grid ∧ gridMono u.grid u'.grid ∧
                ∀ c' : Int × Int, (u.grid c'.1 c'.2).revealed = false →
                  (u'.grid c'.1 c'.2).revealed = true → c' ∈ S)
              ⟨setRevealed s.grid gx gy, insert (gx, gy) s.visited,
                s.acc ++ [chunkRecordOf cfg gx gy]⟩
              (neighborOffsets.foldl (floodStep cfg (flood cfg fuel) gx gy)
                ⟨setRevealed s.grid gx gy, insert (gx, gy) s.visited,
                  s.acc ++ [chunkRecordOf cfg gx gy]⟩) := by
            refine foldl_rel
              (fun (u u' : FloodState) => gridFrame u.grid u'.grid ∧ gridMono u.grid u'.grid ∧
                ∀ c' : Int × Int, (u.grid c'.1 c'.2).revealed = false →
                  (u'.grid c'.1 c'.2).revealed = true → c' ∈ S) ?_ ?_ _ _ _ ?_
            · intro u
              refine ⟨gridFrame_refl _, gridMono_refl _, fun c' hc1 hc2 => ?_⟩
              rw [hc1] at hc2
              exact absurd hc2 (by decide)
            · intro a b c' hab hbc
              refine ⟨gridFrame_trans hab.1 hbc.1, gridMono_trans hab.2.1 hbc.2.1,
                fun w hw1 hw2 => ?_⟩
              cases hw : (b.grid w.1 w.2).revealed
              · exact hbc.2.2 w hw hw2
              · exact hab.2.2 w hw1 hw
            · intro t d hd hR
              unfold floodStep
              by_cases hb : 0 ≤ gx + d.1 ∧ gx + d.1 < cfg.GRID_WIDTH ∧ 0 ≤ gy + d.2 ∧
                  gy + d.2 < cfg.GRID_HEIGHT
              · rw [if_pos hb]
                by_cases he : (!(t.grid (gx + d.1) (gy + d.2)).revealed &&
                    !(t.grid (gx + d.1) (gy + d.2)).flagged &&
                    !(t.grid (gx + d.1) (gy + d.2)).hasMine) = true
                · rw [if_pos he]
                  simp only [Bool.and_eq_true, Bool.not_eq_true'] at he
                  -- the stepped-to neighbor is in S by closure at (gx, gy)
                  have hframe_st : gridFrame s.grid t.grid :=
                    gridFrame_trans (fun a b => setRevealed_static s.grid gx gy a b) hR.1
                  have hmine_s : (s.grid (gx + d.1) (gy + d.2)).hasMine = false := by
                    rw [← (hframe_st (gx + d.1) (gy + d.2)).1]
                    exact he.2
                  have hnS : (gx + d.1, gy + d.2) ∈ S := hcl (gx, gy) hgS hadj0 hmine0 d hd hb hmine_s
                  have hclt : ClosedUnder cfg t.grid S := ClosedUnder_frame hcl hframe_st
                  refine ⟨(flood_rel cfg hS fuel t _ _ hb).1, (flood_rel cfg hS fuel t _ _ hb).2.1,
                    fun w hw1 hw2 => ih t (gx + d.1) (gy + d.2) hb hnS hclt w hw1 hw2⟩
                · rw [if_neg he]
                  refine ⟨gridFrame_refl _, gridMono_refl _, fun c' hc1 hc2 => ?_⟩
                  rw [hc1] at hc2
                  exact absurd hc2 (by decide)
              · rw [if_neg hb]
                refine ⟨gridFrame_refl _, gridMono_refl _, fun c' hc1 hc2 => ?_⟩
                rw [hc1] at hc2
                exact absurd hc2 (by decide)
          -- chain s → s2 → fold result
          by_cases hcg : c.1 = gx ∧ c.2 = gy
          · have : c = (gx, gy) := Prod.ext hcg.1 hcg.2
            rw [this]
            exact hgS
          · have hs2 : ((⟨setRevealed s.grid gx gy, insert (gx, gy) s.visited,
                s.acc ++ [chunkRecordOf cfg gx gy]⟩ : FloodState).grid c.1 c.2).revealed = false := by
              show (setRevealed s.grid gx gy c.1 c.2).revealed = false
              rw [setRevealed_other s.grid gx gy c.1 c.2 hcg]
              exact h1
            exact hfold.2.2 c hs2 h2
        · rw [if_neg hz] at h2
          have h2' : (setRevealed s.grid gx gy c.1 c.2).revealed = true := h2
          by_cases hcg : c.1 = gx ∧ c.2 = gy
          · have : c = (gx, gy) := Prod.ext hcg.1 hcg.2
            rw [this]
            exact hgS
          · rw [setRevealed_other s.grid gx gy c.1 c.2 hcg] at h2'
            rw [h1] at h2'
            exact absurd h2' (by decide)

theorem card_diff_insert_lt (B v : Finset (Int × Int)) (k : Int × Int)
    (hk : k ∈ B) (hkv : k ∉ v) : (B \ insert k v).card < (B \ v).card := by
  apply Finset.card_lt_card
  have hsub : B \ insert k v ⊆ B \ v :=
    Finset.sdiff_subset_sdiff (Finset.Subset.refl B) (Finset.subset_insert k v)
  rw [Finset.ssubset_iff_of_subset hsub]
  exact ⟨k, Finset.mem_sdiff.mpr ⟨hk, hkv⟩,
    fun hmem => (Finset.mem_sdiff.mp hmem).2 (Finset.mem_insert_self k v)⟩

/-- Completeness of the flood fill, provided the fuel exceeds the number
of unvisited in-bounds cells (always true for the fuel `revealCell`
supplies): the start cell ends revealed unless it was flagged, the
visited-set invariant is maintained, and every newly revealed
zero-adjacency mine-free cell has each of its in-bounds mine-free
neighbors revealed (or initially flagged) in the final grid. -/
theorem flood_complete (cfg : Config) (hS : 0 < cfg.CHUNK_SIZE) :
    ∀ (fuel : Nat) (s : FloodState) (gx gy : Int),
      InBounds cfg gx gy → visitedInv s →
      (boundsFinset cfg \ s.visited).card < fuel →
      (((flood cfg fuel s gx gy).grid gx gy).revealed = true ∨
        (s.grid gx gy).flagged = true) ∧
      visitedInv (flood cfg fuel s gx gy) ∧
      (∀ c : Int × Int, (s.grid c.1 c.2).revealed = false →
        ((flood cfg fuel s gx gy).grid c.1 c.2).revealed = true →
        (s.grid c.1 c.2).adjacentMines = 0 → (s.grid c.1 c.2).hasMine = false →
        ∀ d ∈ neighborOffsets, InBounds cfg (c.1 + d.1) (c.2 + d.2) →
          (s.grid (c.1 + d.1) (c.2 + d.2)).hasMine = false →
          ((flood cfg fuel s gx gy).grid (c.1 + d.1) (c.2 + d.2)).revealed = true ∨
            (s.grid (c.1 + d.1) (c.2 + d.2)).flagged = true) := by
  intro fuel
  induction fuel with
  | zero =>
    intro s gx gy _ _ hcard
    exact absurd hcard (Nat.not_lt_zero _)
  | succ fuel ih =>
    intro s gx gy hin hinv hcard
    rw [flood_succ]
    by_cases hv : (gx, gy) ∈ s.visited
    · rw [if_pos hv]
      refine ⟨hinv (gx, gy) hv, hinv, fun c h1 h2 _ _ _ _ _ _ => ?_⟩
      rw [h1] at h2
      exact absurd h2 (by decide)
    · rw [if_neg hv]
      by_cases hrf : ((s.grid gx gy).revealed || (s.grid gx gy).flagged) = true
      · rw [if_pos hrf]
        rw [Bool.or_eq_true] at hrf
        refine ⟨hrf, fun c hc => ?_, fun c h1 h2 _ _ _ _ _ _ => ?_⟩
        · rcases Finset.mem_insert.mp hc with h | h
          · rw [h]
            exact hrf
          · exact hinv c h
        · have h2' : (s.grid c.1 c.2).revealed = true := h2
          rw [h1] at h2'
          exact absurd h2' (by decide)
      · rw [if_neg hrf]
        simp only [Bool.or_eq_true, not_or, Bool.not_eq_true] at hrf
        obtain ⟨hrev, hfla⟩ := hrf
        by_cases hz : ((s.grid gx gy).adjacentMines == 0 && !(s.grid gx gy).hasMine) = true
        · rw [if_pos hz]
          simp only [Bool.and_eq_true, beq_iff_eq, Bool.not_eq_true'] at hz
          obtain ⟨hadj0, hmine0⟩ := hz
          have hcard2 : (boundsFinset cfg \ insert (gx, gy) s.visited).card < fuel := by
            have h1 := card_diff_insert_lt (boundsFinset cfg) s.visited (gx, gy)
              ((mem_boundsFinset cfg (gx, gy)).mpr hin) hv
            omega
          -- the state entering the neighbor fold
          have hinv2 : visitedInv ⟨setRevealed s.grid gx gy, insert (gx, gy) s.visited,
              s.acc ++ [chunkRecordOf cfg gx gy]⟩ := by
            intro c hc
            rcases Finset.mem_insert.mp hc with h | h
            · rw [h]
              exact Or.inl (setRevealed_self_revealed s.grid gx gy)
            · rcases hinv c h with hr | hf2
              · exact Or.inl (setRevealed_mono _ _ _ _ _ hr)
              · refine Or.inr ?_
                show (setRevealed s.grid gx gy c.1 c.2).flagged = true
                rw [(setRevealed_static s.grid gx gy c.1 c.2).2.2]
                exact hf2
          -- the fold auxiliary: invariants in, conclusions out
          have aux : ∀ (l : List (Int × Int)), (∀ d ∈ l, d ∈ neighborOffsets) →
              ∀ t : FloodState, visitedInv t → gridFrame s.grid t.grid →
              insert (gx, gy) s.visited ⊆ t.visited →
              visitedInv (l.foldl (floodStep cfg (flood cfg fuel) gx gy) t) ∧
              gridFrame t.grid (l.foldl (floodStep cfg (flood cfg fuel) gx gy) t).grid ∧
              gridMono t.grid (l.foldl (floodStep cfg (flood cfg fuel) gx gy) t).grid ∧
              t.visited ⊆ (l.foldl (floodStep cfg (flood cfg fuel) gx gy) t).visited ∧
              (∀ d ∈ l, InBounds cfg (gx + d.1) (gy + d.2) →
                (s.grid (gx + d.1) (gy + d.2)).hasMine = false →
                (((l.foldl (floodStep cfg (flood cfg fuel) gx gy) t).grid
                  (gx + d.1) (gy + d.2)).revealed = true ∨
                  (s.grid (gx + d.1) (gy + d.2)).flagged = true)) ∧
              (∀ c : Int × Int, (t.grid c.1 c.2).revealed = false →
                (((l.foldl (floodStep cfg (flood cfg fuel) gx gy) t).grid c.1 c.2).revealed =
                  true) →
                (s.grid c.1 c.2).adjacentMines = 0 → (s.grid c.1 c.2).hasMine = false →
                ∀ d' ∈ neighborOffsets, InBounds cfg (c.1 + d'.1) (c.2 + d'.2) →
                  (s.grid (c.1 + d'.1) (c.2 + d'.2)).hasMine = false →
                  (((l.foldl (floodStep cfg (flood cfg fuel) gx gy) t).grid
                    (c.1 + d'.1) (c.2 + d'.2)).revealed = true ∨
                    (s.grid (c.1 + d'.1) (c.2 + d'.2)).flagged = true)) := by
            intro l
            induction l with
            | nil =>
              intro _ t hinvt hframet hsubt
              simp only [List.foldl_nil]
              refine ⟨hinvt, gridFrame_refl _, gridMono_refl _, Finset.Subset.refl _,
                fun d hd => absurd hd (by simp), fun c h1 h2 _ _ _ _ _ _ => ?_⟩
              rw [h1] at h2
              exact absurd h2 (by decide)
            | cons d l' ihl =>
              intro hsub t hinvt hframet hsubt
              rw [List.foldl_cons]
              -- step analysis
              have hstep : visitedInv (floodStep cfg (flood cfg fuel) gx gy t d) ∧
                  gridFrame t.grid (floodStep cfg (flood cfg fuel) gx gy t d).grid ∧
                  gridMono t.grid (floodStep cfg (flood cfg fuel) gx gy t d).grid ∧
                  t.visited ⊆ (floodStep cfg (flood cfg fuel) gx gy t d).visited ∧
                  (InBounds cfg (gx + d.1) (gy + d.2) →
                    (s.grid (gx + d.1) (gy + d.2)).hasMine = false →
                    (((floodStep cfg (flood cfg fuel) gx gy t d).grid
                      (gx + d.1) (gy + d.2)).revealed = true ∨
                      (s.grid (gx + d.1) (gy + d.2)).flagged = true)) ∧
                  (∀ c : Int × Int, (t.grid c.1 c.2).revealed = false →
                    (((floodStep cfg (flood cfg fuel) gx gy t d).grid c.1 c.2).revealed =
                      true) →
                    (s.grid c.1 c.2).adjacentMines = 0 → (s.grid c.1 c.2).hasMine = false →
                    ∀ d' ∈ neighborOffsets, InBounds cfg (c.1 + d'.1) (c.2 + d'.2) →
                      (s.grid (c.1 + d'.1) (c.2 + d'.2)).hasMine = false →
                      (((floodStep cfg (flood cfg fuel) gx gy t d).grid
                        (c.1 + d'.1) (c.2 + d'.2)).revealed = true ∨
                        (s.grid (c.1 + d'.1) (c.2 + d'.2)).flagged = true)) := by
                unfold floodStep
                by_cases hb : 0 ≤ gx + d.1 ∧ gx + d.1 < cfg.GRID_WIDTH ∧ 0 ≤ gy + d.2 ∧
                    gy + d.2 < cfg.GRID_HEIGHT
                · rw [if_pos hb]
                  by_cases he : (!(t.grid (gx + d.1) (gy + d.2)).revealed &&
                      !(t.grid (gx + d.1) (gy + d.2)).flagged &&
                      !(t.grid (gx + d.1) (gy + d.2)).hasMine) = true
                  · rw [if_pos he]
                    simp only [Bool.and_eq_true, Bool.not_eq_true'] at he
                    have hcardt : (boundsFinset cfg \ t.visited).card < fuel := by
                      have hmono := Finset.card_le_card
                        (Finset.sdiff_subset_sdiff (Finset.Subset.refl (boundsFinset cfg)) hsubt)
                      omega
                    have hrec := ih t (gx + d.1) (gy + d.2) hb hinvt hcardt
                    have hrel := flood_rel cfg hS fuel t (gx + d.1) (gy + d.2) hb
                    refine ⟨hrec.2.1, hrel.1, hrel.2.1, hrel.2.2.1, fun _ _ => ?_, ?_⟩
                    · rcases hrec.1 with h | h
                      · exact Or.inl h
                      · rw [he.1.2] at h
                        exact absurd h (by decide)
                    · intro c h1 h2 hadj hmine d' hd' hbd' hmine'
                      have hc' := hrec.2.2 c h1 h2
                        (by rw [← (hframet c.1 c.2).2.1] at hadj; exact hadj)
                        (by rw [← (hframet c.1 c.2).1] at hmine; exact hmine)
                        d' hd' hbd'
                        (by rw [← (hframet (c.1 + d'.1) (c.2 + d'.2)).1] at hmine'; exact hmine')
                      rcases hc' with h | h
                      · exact Or.inl h
                      · refine Or.inr ?_
                        rw [← (hframet (c.1 + d'.1) (c.2 + d'.2)).2.2]
                        exact h
                  · rw [if_neg he]
                    simp only [Bool.and_eq_true, Bool.not_eq_true', not_and_or, not_or] at he
                    refine ⟨hinvt, gridFrame_refl _, gridMono_refl _, Finset.Subset.refl _,
                      fun _ hmines => ?_, fun c h1 h2 _ _ _ _ _ _ => ?_⟩
                    · -- not eligible: revealed, flagged, or a mine (excluded)
                      rcases he with h | h
                      · rcases h with h | h
                        · simp only [Bool.not_eq_false] at h
                          exact Or.inl h
                        · simp only [Bool.not_eq_false] at h
                          refine Or.inr ?_
                          rw [← (hframet (gx + d.1) (gy + d.2)).2.2]
                          exact h
                      · simp only [Bool.not_eq_false] at h
                        rw [(hframet (gx + d.1) (gy + d.2)).1] at h
                        rw [h] at hmines
                        exact absurd hmines (by decide)
                    · rw [h1] at h2
                      exact absurd h2 (by decide)
                · rw [if_neg hb]
                  refine ⟨hinvt, gridFrame_refl _, gridMono_refl _, Finset.Subset.refl _,
                    fun hbd _ => absurd hbd hb, fun c h1 h2 _ _ _ _ _ _ => ?_⟩
                  rw [h1] at h2
                  exact absurd h2 (by decide)
              -- apply the list induction hypothesis to the stepped state
              have hrest := ihl (fun b hb => hsub b (by simp [hb]))
                (floodStep cfg (flood cfg fuel) gx gy t d) hstep.1
                (gridFrame_trans hframet hstep.2.1)
                (Finset.Subset.trans hsubt hstep.2.2.2.1)
              refine ⟨hrest.1, gridFrame_trans hstep.2.1 hrest.2.1,
                gridMono_trans hstep.2.2.1 hrest.2.2.1,
                Finset.Subset.trans hstep.2.2.2.1 hrest.2.2.2.1, ?_, ?_⟩
              · intro e he hbe hme
                rcases List.mem_cons.mp he with rfl | he'
                · rcases hstep.2.2.2.2.1 hbe hme with h | h
                  · exact Or.inl (hrest.2.2.1 _ _ h)
                  · exact Or.inr h
                · exact hrest.2.2.2.2.1 e he' hbe hme
              · intro c h1 h2 hadj hmine d' hd' hbd' hmine'
                cases hmid : ((floodStep cfg (flood cfg fuel) gx gy t d).grid c.1 c.2).revealed
                · exact hrest.2.2.2.2.2 c hmid h2 hadj hmine d' hd' hbd' hmine'
                · have hc' := hstep.2.2.2.2.2 c h1 hmid hadj hmine d' hd' hbd' hmine'
                  rcases hc' with h | h
                  · exact Or.inl (hrest.2.2.1 _ _ h)
                  · exact Or.inr h
          -- instantiate the auxiliary at the full offset list and s2
          have hres := aux neighborOffsets (fun _ hd => hd)
            ⟨setRevealed s.grid gx gy, insert (gx, gy) s.visited,
              s.acc ++ [chunkRecordOf cfg gx gy]⟩ hinv2
            (fun a b => setRevealed_static s.grid gx gy a b) (Finset.Subset.refl _)
          refine ⟨Or.inl (hres.2.2.1 gx gy (setRevealed_self_revealed s.grid gx gy)),
            hres.1, ?_⟩
          intro c h1 h2 hadj hmine d hd hbd hmine'
          by_cases hcg : c.1 = gx ∧ c.2 = gy
          · obtain ⟨h1', h2'⟩ := hcg
            have hstep' := hres.2.2.2.2.1 d hd
            rw [h1', h2']
            refine hstep' ?_ ?_
            · rw [← h1', ← h2']
              exact hbd
            · rw [← h1', ← h2']
              exact hmine'
          · have hs2 : ((⟨setRevealed s.grid gx gy, insert (gx, gy) s.visited,
                s.acc ++ [chunkRecordOf cfg gx gy]⟩ : FloodState).grid c.1 c.2).revealed =
                false := by
              show (setRevealed s.grid gx gy c.1 c.2).revealed = false
              rw [setRevealed_other s.grid gx gy c.1 c.2 hcg]
              exact h1
            exact hres.2.2.2.2.2 c hs2 h2 hadj hmine d hd hbd hmine'
        · rw [if_neg hz]
          simp only [Bool.and_eq_true, beq_iff_eq, Bool.not_eq_true'] at hz
          refine ⟨Or.inl (setRevealed_self_revealed s.grid gx gy), ?_, ?_⟩
          · intro c hc
            rcases Finset.mem_insert.mp hc with h | h
            · rw [h]
              exact Or.inl (setRevealed_self_revealed s.grid gx gy)
            · rcases hinv c h with hr | hf2
              · exact Or.inl (setRevealed_mono _ _ _ _ _ hr)
              · refine Or.inr ?_
                show (setRevealed s.grid gx gy c.1 c.2).flagged = true
                rw [(setRevealed_static s.grid gx gy c.1 c.2).2.2]
                exact hf2
          · intro c h1 h2 hadj hmine _ _ _ _
            by_cases hcg : c.1 = gx ∧ c.2 = gy
            · refine absurd ?_ hz
              constructor
              · rw [← hcg.1, ← hcg.2]
                exact hadj
              · rw [← hcg.1, ← hcg.2]
                exact hmine
            · have h2' : (setRevealed s.grid gx gy c.1 c.2).revealed = true := h2
              rw [setRevealed_other s.grid gx gy c.1 c.2 hcg] at h2'
              rw [h1] at h2'
              exact absurd h2' (by decide)

/-! Lifting the flood lemmas to the three operations. -/

theorem NewRecords_single (cfg : Config) (g : Grid) (gX gY : Int) (r : CellUpdate)
    (hglob : globOf cfg r = (gX, gY)) (hin : InBounds cfg gX gY)
    (hrev : (g gX gY).revealed = false) (hfla : (g gX gY).flagged = false) :
    NewRecords cfg g (setRevealed g gX gY) [r] := by
  have hgl : globList cfg [r] = [(gX, gY)] := by
    unfold globList
    rw [List.map_cons, List.map_nil, hglob]
  refine ⟨?_, ?_, ?_⟩
  · rw [hgl]
    exact List.nodup_singleton _
  · rw [hgl]
    intro c hc
    rw [List.mem_singleton] at hc
    subst hc
    exact ⟨hin, hrev, hfla, setRevealed_self_revealed g gX gY⟩
  · intro c h1r h2r
    rw [hgl, List.mem_singleton]
    by_contra hne
    have hne' : ¬(c.1 = gX ∧ c.2 = gY) := by
      intro hand
      exact hne (Prod.ext hand.1 hand.2)
    rw [setRevealed_other g gX gY c.1 c.2 hne'] at h2r
    rw [h1r] at h2r
    exact absurd h2r (by decide)

theorem bounds_card_lt_fuel (cfg : Config) (hW : 0 < cfg.GRID_WIDTH)
    (hH : 0 < cfg.GRID_HEIGHT) :
    (boundsFinset cfg \ (∅ : Finset (Int × Int))).card < floodFuel cfg := by
  rw [Finset.sdiff_empty]
  unfold boundsFinset floodFuel
  rw [Finset.card_product, Int.card_Icc, Int.card_Icc]
  have e1 : cfg.GRID_WIDTH - 1 + 1 - 0 = cfg.GRID_WIDTH := by ring
  have e2 : cfg.GRID_HEIGHT - 1 + 1 - 0 = cfg.GRID_HEIGHT := by ring
  rw [e1, e2]
  have h1 : (cfg.GRID_WIDTH.toNat : Int) = cfg.GRID_WIDTH := Int.toNat_of_nonneg hW.le
  have h2 : (cfg.GRID_HEIGHT.toNat : Int) = cfg.GRID_HEIGHT := Int.toNat_of_nonneg hH.le
  have h3 : ((cfg.GRID_WIDTH.toNat * cfg.GRID_HEIGHT.toNat : Nat) : Int) =
      cfg.GRID_WIDTH * cfg.GRID_HEIGHT := by
    push_cast
    rw [h1, h2]
  omega

/-- Specification of `revealCellWithFlood`: frame, monotonicity, exact
record accounting; the target ends revealed when it is unflagged; and
when the target is mine-free no newly revealed cell is a mine. -/
theorem revealCellWithFlood_spec (cfg : Config) (hS : 0 < cfg.CHUNK_SIZE)
    (g : Grid) (gX gY : Int) (hin : InBounds cfg gX gY) :
    gridFrame g (revealCellWithFlood cfg g gX gY).2 ∧
    gridMono g (revealCellWithFlood cfg g gX gY).2 ∧
    NewRecords cfg g (revealCellWithFlood cfg g gX gY).2 (revealCellWithFlood cfg g gX gY).1 ∧
    ((g gX gY).flagged = false → ((revealCellWithFlood cfg g gX gY).2 gX gY).revealed = true) ∧
    ((g gX gY).hasMine = false → ∀ c : Int × Int, (g c.1 c.2).revealed = false →
      ((revealCellWithFlood cfg g gX gY).2 c.1 c.2).revealed = true →
      (g c.1 c.2).hasMine = false) := by
  have hW : 0 < cfg.GRID_WIDTH := lt_of_le_of_lt hin.1 hin.2.1
  have hH : 0 < cfg.GRID_HEIGHT := lt_of_le_of_lt hin.2.2.1 hin.2.2.2
  simp only [revealCellWithFlood]
  by_cases hrf : ((g gX gY).revealed || (g gX gY).flagged) = true
  · rw [if_pos hrf]
    refine ⟨gridFrame_refl _, gridMono_refl _, NewRecords_nil cfg g, fun hfla => ?_,
      fun _ c h1 h2 => ?_⟩
    · rw [Bool.or_eq_true] at hrf
      rcases hrf with h | h
      · exact h
      · rw [h] at hfla
        exact absurd hfla (by decide)
    · rw [h1] at h2
      exact absurd h2 (by decide)
  · rw [if_neg hrf]
    simp only [Bool.or_eq_true, not_or, Bool.not_eq_true] at hrf
    obtain ⟨hrev, hfla⟩ := hrf
    by_cases hz : ((g gX gY).adjacentMines == 0 && !(g gX gY).hasMine) = true
    · rw [if_pos hz]
      have hrel := flood_rel cfg hS (floodFuel cfg) ⟨g, ∅, []⟩ gX gY hin
      obtain ⟨hfr, hmo, _, δ, hacc, hnr⟩ := hrel
      have hacc' : (flood cfg (floodFuel cfg) ⟨g, ∅, []⟩ gX gY).acc = δ := by
        rw [hacc]
        simp
      have hcompl := flood_complete cfg hS (floodFuel cfg) ⟨g, ∅, []⟩ gX gY hin
        (fun c hc => absurd hc (Finset.not_mem_empty c)) (bounds_card_lt_fuel cfg hW hH)
      refine ⟨hfr, hmo, by rw [hacc']; exact hnr, fun _ => ?_, fun hmine c h1 h2 => ?_⟩
      · rcases hcompl.1 with h | h
        · exact h
        · rw [hfla] at h
          exact absurd h (by decide)
      · simp only [Bool.and_eq_true, beq_iff_eq, Bool.not_eq_true'] at hz
        have hsound := flood_sound cfg hS {c : Int × Int | (g c.1 c.2).hasMine = false}
          (floodFuel cfg) ⟨g, ∅, []⟩ gX gY hin hz.2 (fun c _ _ _ d _ _ hm2 => hm2)
        exact hsound c h1 h2
    · rw [if_neg hz]
      refine ⟨fun a b => setRevealed_static g gX gY a b,
        fun a b h => setRevealed_mono g gX gY a b h,
        NewRecords_single cfg g gX gY _ (globOf_chunkRecordOf cfg hS gX gY hin.1 hin.2.2.1)
          hin hrev hfla,
        fun _ => setRevealed_self_revealed g gX gY, fun hmine c h1 h2 => ?_⟩
      by_cases hcg : c.1 = gX ∧ c.2 = gY
      · rw [hcg.1, hcg.2]
        exact hmine
      · have h2' : (setRevealed g gX gY c.1 c.2).revealed = true := h2
        rw [setRevealed_other g gX gY c.1 c.2 hcg] at h2'
        rw [h1] at h2'
        exact absurd h2' (by decide)

/-- Specification of `revealCell`: frame, monotonicity and exact record
accounting relative to the pre-call grid. -/
theorem revealCell_spec (cfg : Config) (hS : 0 < cfg.CHUNK_SIZE)
    (g : Grid) (bombs cx cy x y : Int) :
    gridFrame g (revealCell cfg g bombs cx cy x y).2.1 ∧
    gridMono g (revealCell cfg g bombs cx cy x y).2.1 ∧
    NewRecords cfg g (revealCell cfg g bombs cx cy x y).2.1
      (revealCell cfg g bombs cx cy x y).1 := by
  simp only [revealCell]
  by_cases hoob : cx * cfg.CHUNK_SIZE + x < 0 ∨ cx * cfg.CHUNK_SIZE + x ≥ cfg.GRID_WIDTH ∨
      cy * cfg.CHUNK_SIZE + y < 0 ∨ cy * cfg.CHUNK_SIZE + y ≥ cfg.GRID_HEIGHT
  · rw [if_pos hoob]
    exact ⟨gridFrame_refl _, gridMono_refl _, NewRecords_nil cfg g⟩
  · rw [if_neg hoob]
    have hin : InBounds cfg (cx * cfg.CHUNK_SIZE + x) (cy * cfg.CHUNK_SIZE + y) := by
      unfold InBounds
      omega
    by_cases hrf : ((g (cx * cfg.CHUNK_SIZE + x) (cy * cfg.CHUNK_SIZE + y)).revealed ||
        (g (cx * cfg.CHUNK_SIZE + x) (cy * cfg.CHUNK_SIZE + y)).flagged) = true
    · rw [if_pos hrf]
      exact ⟨gridFrame_refl _, gridMono_refl _, NewRecords_nil cfg g⟩
    · rw [if_neg hrf]
      simp only [Bool.or_eq_true, not_or, Bool.not_eq_true] at hrf
      obtain ⟨hrev, hfla⟩ := hrf
      by_cases hz : ((g (cx * cfg.CHUNK_SIZE + x) (cy * cfg.CHUNK_SIZE + y)).adjacentMines == 0 &&
          !(g (cx * cfg.CHUNK_SIZE + x) (cy * cfg.CHUNK_SIZE + y)).hasMine) = true
      · rw [if_pos hz]
        have hrel := flood_rel cfg hS (floodFuel cfg) ⟨g, ∅, []⟩
          (cx * cfg.CHUNK_SIZE + x) (cy * cfg.CHUNK_SIZE + y) hin
        obtain ⟨hfr, hmo, _, δ, hacc, hnr⟩ := hrel
        have hacc' : (flood cfg (floodFuel cfg) ⟨g, ∅, []⟩
            (cx * cfg.CHUNK_SIZE + x) (cy * cfg.CHUNK_SIZE + y)).acc = δ := by
          rw [hacc]
          simp
        exact ⟨hfr, hmo, by rw [hacc']; exact hnr⟩
      · rw [if_neg hz]
        refine ⟨fun a b => setRevealed_static g _ _ a b,
          fun a b h => setRevealed_mono g _ _ a b h,
          NewRecords_single cfg g _ _ _ rfl hin hrev hfla⟩

/-! Chord-scan characterization. -/

theorem chordScan_eq (cfg : Config) (g : Grid) (gX gY : Int) :
    chordScan cfg g gX gY =
      neighborOffsets.foldl (chordScanStep cfg g gX gY) (0, 0, []) := rfl

theorem chordScan_candidates (cfg : Config) (g : Grid) (gX gY : Int) :
    (chordScan cfg g gX gY).2.2 =
      (neighborOffsets.filter (chordCandPred cfg g gX gY)).map (chordCandEntry g gX gY) := by
  rw [chordScan_eq]
  have aux : ∀ (l : List (Int × Int)) (acc : Nat × Nat × List (Int × Int × Cell)),
      (l.foldl (chordScanStep cfg g gX gY) acc).2.2 =
        acc.2.2 ++ (l.filter (chordCandPred cfg g gX gY)).map (chordCandEntry g gX gY) := by
    intro l
    induction l with
    | nil =>
      intro acc
      simp
    | cons d t ihl =>
      intro acc
      rw [List.foldl_cons, List.filter_cons]
      by_cases hb : 0 ≤ gX + d.1 ∧ gX + d.1 < cfg.GRID_WIDTH ∧ 0 ≤ gY + d.2 ∧
          gY + d.2 < cfg.GRID_HEIGHT
      · have hbI : InBounds cfg (gX + d.1) (gY + d.2) := hb
        by_cases hfl : (g (gX + d.1) (gY + d.2)).flagged = true
        · have hpred : chordCandPred cfg g gX gY d = false := by
            simp [chordCandPred, hfl]
          have hstep : chordScanStep cfg g gX gY acc d = (acc.1 + 1, acc.2.1, acc.2.2) := by
            unfold chordScanStep
            rw [if_pos hb, if_pos hfl]
          rw [hstep, ihl, hpred]
          simp
        · by_cases hrv : (g (gX + d.1) (gY + d.2)).revealed = true
          · have hpred : chordCandPred cfg g gX gY d = false := by
              simp [chordCandPred, hrv]
            by_cases hm : (g (gX + d.1) (gY + d.2)).hasMine = true
            · have hstep : chordScanStep cfg g gX gY acc d =
                  (acc.1, acc.2.1 + 1, acc.2.2) := by
                unfold chordScanStep
                rw [if_pos hb, if_neg hfl, if_pos (by simp [hrv, hm])]
              rw [hstep, ihl, hpred]
              simp
            · have hstep : chordScanStep cfg g gX gY acc d = acc := by
                unfold chordScanStep
                rw [if_pos hb, if_neg hfl, if_neg (by simp [hm]),
                  if_neg (by simp [hrv])]
              rw [hstep, ihl, hpred]
              simp
          · have hpred : chordCandPred cfg g gX gY d = true := by
              simp [chordCandPred, hbI, hfl, hrv]
            have hstep : chordScanStep cfg g gX gY acc d =
                (acc.1, acc.2.1, acc.2.2 ++
                  [(gX + d.1, gY + d.2, g (gX + d.1) (gY + d.2))]) := by
              unfold chordScanStep
              rw [if_pos hb, if_neg hfl, if_neg (by simp [hrv]), if_pos (by simp [hrv])]
            rw [hstep, ihl, hpred]
            simp [chordCandEntry, List.append_assoc]
      · have hpred : chordCandPred cfg g gX gY d = false := by
          have : ¬ InBounds cfg (gX + d.1) (gY + d.2) := hb
          simp [chordCandPred, this]
        have hstep : chordScanStep cfg g gX gY acc d = acc := by
          unfold chordScanStep
          rw [if_neg hb]
        rw [hstep, ihl, hpred]
        simp
  rw [aux]
  simp

theorem chordScan_cand_props (cfg : Config) (g : Grid) (gX gY : Int) :
    ∀ e ∈ (chordScan cfg g gX gY).2.2,
      InBounds cfg e.1 e.2.1 ∧ e.2.2 = g e.1 e.2.1 ∧ (g e.1 e.2.1).revealed = false ∧
      (g e.1 e.2.1).flagged = false := by
  rw [chordScan_candidates]
  intro e he
  obtain ⟨d, hd, rfl⟩ := List.mem_map.mp he
  have hdp := (List.mem_filter.mp hd).2
  simp only [chordCandPred, Bool.and_eq_true, decide_eq_true_eq, Bool.not_eq_true'] at hdp
  exact ⟨hdp.1.1, rfl, hdp.2, hdp.1.2⟩

theorem chordScan_cand_mem (cfg : Config) (g : Grid) (gX gY : Int) (d : Int × Int)
    (hd : d ∈ neighborOffsets) (hb : InBounds cfg (gX + d.1) (gY + d.2))
    (hfl : (g (gX + d.1) (gY + d.2)).flagged = false)
    (hrv : (g (gX + d.1) (gY + d.2)).revealed = false) :
    chordCandEntry g gX gY d ∈ (chordScan cfg g gX gY).2.2 := by
  rw [chordScan_candidates]
  refine List.mem_map_of_mem _ (List.mem_filter.mpr ⟨hd, ?_⟩)
  simp [chordCandPred, hb, hfl, hrv]

theorem chordScan_cands_nodup (cfg : Config) (g : Grid) (gX gY : Int) :
    ((chordScan cfg g gX gY).2.2.map (fun e => (e.1, e.2.1))).Nodup := by
  rw [chordScan_candidates, List.map_map]
  have hcomp : ((fun e : Int × Int × Cell => (e.1, e.2.1)) ∘ chordCandEntry g gX gY) =
      fun d : Int × Int => (gX + d.1, gY + d.2) := rfl
  rw [hcomp]
  refine List.Nodup.map ?_ (List.Nodup.filter _ (by decide))
  intro a b hab
  rw [Prod.ext_iff] at hab
  simp only at hab
  exact Prod.ext (by omega) (by omega)

/-- Specification of the chord candidate loop: frame and monotonicity,
exact record accounting relative to the original grid, every candidate
revealed on exit, and one exploded-mine increment per mine candidate. -/
theorem chordFold_spec (cfg : Config) (hS : 0 < cfg.CHUNK_SIZE) (g : Grid) :
    ∀ (cands : List (Int × Int × Cell)) (st : List CellUpdate × Grid × Int),
      (∀ e ∈ cands, InBounds cfg e.1 e.2.1 ∧ e.2.2 = g e.1 e.2.1 ∧
        (g e.1 e.2.1).revealed = false ∧ (g e.1 e.2.1).flagged = false) →
      (cands.map (fun e => (e.1, e.2.1))).Nodup →
      gridFrame g st.2.1 → gridMono g st.2.1 →
      NewRecords cfg g st.2.1 st.1 →
      (∀ e ∈ cands, e.2.2.hasMine = true → (st.2.1 e.1 e.2.1).revealed = false) →
      gridFrame g (cands.foldl (chordFoldStep cfg) st).2.1 ∧
      gridMono st.2.1 (cands.foldl (chordFoldStep cfg) st).2.1 ∧
      NewRecords cfg g (cands.foldl (chordFoldStep cfg) st).2.1
        (cands.foldl (chordFoldStep cfg) st).1 ∧
      (∀ e ∈ cands, ((cands.foldl (chordFoldStep cfg) st).2.1 e.1 e.2.1).revealed = true) ∧
      (cands.foldl (chordFoldStep cfg) st).2.2 =
        st.2.2 + ((cands.filter (fun e => e.2.2.hasMine)).length : Int) := by
  intro cands
  induction cands with
  | nil =>
    intro st _ _ hfr hmo hnr _
    simp only [List.foldl_nil, List.filter_nil, List.length_nil]
    exact ⟨hfr, gridMono_refl _, hnr, fun e he => absurd he (by simp), by simp⟩
  | cons e rest ihl =>
    intro st hprops hnodup hfr hmo hnr hminv
    have hp := hprops e (by simp)
    obtain ⟨hin, hcell, hrv, hfl⟩ := hp
    have hprops' : ∀ e' ∈ rest, InBounds cfg e'.1 e'.2.1 ∧ e'.2.2 = g e'.1 e'.2.1 ∧
        (g e'.1 e'.2.1).revealed = false ∧ (g e'.1 e'.2.1).flagged = false :=
      fun e' he' => hprops e' (by simp [he'])
    have hnodup' : (rest.map (fun e => (e.1, e.2.1))).Nodup := by
      rw [List.map_cons] at hnodup
      exact hnodup.of_cons
    have hheadnot : (e.1, e.2.1) ∉ rest.map (fun e => (e.1, e.2.1)) := by
      rw [List.map_cons] at hnodup
      exact (List.nodup_cons.mp hnodup).1
    rw [List.foldl_cons]
    by_cases hm : e.2.2.hasMine = true
    · -- mine candidate: revealed in place, bomb counter incremented
      have hstep : chordFoldStep cfg st e =
          (st.1 ++ [chunkRecordOf cfg e.1 e.2.1], setRevealed st.2.1 e.1 e.2.1,
            st.2.2 + 1) := by
        unfold chordFoldStep
        rw [if_pos hm]
      rw [hstep]
      have hstrv : (st.2.1 e.1 e.2.1).revealed = false := hminv e (by simp) hm
      have hstfl : (st.2.1 e.1 e.2.1).flagged = false := by
        rw [(hfr e.1 e.2.1).2.2]
        exact hfl
      have hnr2 : NewRecords cfg st.2.1 (setRevealed st.2.1 e.1 e.2.1)
          [chunkRecordOf cfg e.1 e.2.1] :=
        NewRecords_single cfg st.2.1 e.1 e.2.1 _
          (globOf_chunkRecordOf cfg hS e.1 e.2.1 hin.1 hin.2.2.1) hin hstrv hstfl
      have hnr' : NewRecords cfg g (setRevealed st.2.1 e.1 e.2.1)
          (st.1 ++ [chunkRecordOf cfg e.1 e.2.1]) :=
        NewRecords_trans hmo hfr (fun a b h => setRevealed_mono _ _ _ a b h) hnr hnr2
      have hfr' : gridFrame g (setRevealed st.2.1 e.1 e.2.1) :=
        gridFrame_trans hfr (fun a b => setRevealed_static st.2.1 e.1 e.2.1 a b)
      have hmo' : gridMono g (setRevealed st.2.1 e.1 e.2.1) :=
        gridMono_trans hmo (fun a b h => setRevealed_mono _ _ _ a b h)
      have hminv' : ∀ e' ∈ rest, e'.2.2.hasMine = true →
          ((setRevealed st.2.1 e.1 e.2.1) e'.1 e'.2.1).revealed = false := by
        intro e' he' hm'
        have hne : ¬(e'.1 = e.1 ∧ e'.2.1 = e.2.1) := by
          intro hand
          apply hheadnot
          rw [← hand.1, ← hand.2]
          exact List.mem_map_of_mem _ he'
        rw [setRevealed_other st.2.1 e.1 e.2.1 e'.1 e'.2.1 hne]
        exact hminv e' (by simp [he']) hm'
      have hihl := ihl (st.1 ++ [chunkRecordOf cfg e.1 e.2.1],
        setRevealed st.2.1 e.1 e.2.1, st.2.2 + 1) hprops' hnodup' hfr' hmo' hnr' hminv'
      refine ⟨hihl.1, ?_, hihl.2.2.1, ?_, ?_⟩
      · exact gridMono_trans (fun a b h => setRevealed_mono _ _ _ a b h) hihl.2.1
      · intro e' he'
        rcases List.mem_cons.mp he' with rfl | he''
        · exact hihl.2.1 e'.1 e'.2.1 (setRevealed_self_revealed st.2.1 e'.1 e'.2.1)
        · exact hihl.2.2.2.1 e' he''
      · rw [hihl.2.2.2.2]
        rw [List.filter_cons, if_pos (by simp [hm])]
        simp only [List.length_cons]
        push_cast
        ring
    · -- safe candidate: revealCellWithFlood
      have hm' : e.2.2.hasMine = false := by simpa using hm
      have hgmine : (g e.1 e.2.1).hasMine = false := by
        rw [← hcell]
        exact hm'
      have hstep : chordFoldStep cfg st e =
          (st.1 ++ (revealCellWithFlood cfg st.2.1 e.1 e.2.1).1,
            (revealCellWithFlood cfg st.2.1 e.1 e.2.1).2, st.2.2) := by
        unfold chordFoldStep
        rw [if_neg (by simp [hm'])]
      rw [hstep]
      have hspec := revealCellWithFlood_spec cfg hS st.2.1 e.1 e.2.1 hin
      have hstfl : (st.2.1 e.1 e.2.1).flagged = false := by
        rw [(hfr e.1 e.2.1).2.2]
        exact hfl
      have hstmine : (st.2.1 e.1 e.2.1).hasMine = false := by
        rw [(hfr e.1 e.2.1).1]
        exact hgmine
      have hrevealed : ((revealCellWithFlood cfg st.2.1 e.1 e.2.1).2 e.1 e.2.1).revealed =
          true := hspec.2.2.2.1 hstfl
      have hnr' : NewRecords cfg g (revealCellWithFlood cfg st.2.1 e.1 e.2.1).2
          (st.1 ++ (revealCellWithFlood cfg st.2.1 e.1 e.2.1).1) :=
        NewRecords_trans hmo hfr hspec.2.1 hnr hspec.2.2.1
      have hfr' : gridFrame g (revealCellWithFlood cfg st.2.1 e.1 e.2.1).2 :=
        gridFrame_trans hfr hspec.1
      have hmo' : gridMono g (revealCellWithFlood cfg st.2.1 e.1 e.2.1).2 :=
        gridMono_trans hmo hspec.2.1
      have hminv' : ∀ e' ∈ rest, e'.2.2.hasMine = true →
          ((revealCellWithFlood cfg st.2.1 e.1 e.2.1).2 e'.1 e'.2.1).revealed = false := by
        intro e' he' hm2
        cases hrev2 : ((revealCellWithFlood cfg st.2.1 e.1 e.2.1).2 e'.1 e'.2.1).revealed
        · rfl
        · have hstun : (st.2.1 e'.1 e'.2.1).revealed = false := hminv e' (by simp [he']) hm2
          have hsafe := hspec.2.2.2.2 hstmine (e'.1, e'.2.1) hstun hrev2
          have he'cell := (hprops' e' he').2.1
          rw [(hfr e'.1 e'.2.1).1] at hsafe
          rw [← he'cell] at hsafe
          rw [hm2] at hsafe
          exact absurd hsafe (by decide)
      have hihl := ihl (st.1 ++ (revealCellWithFlood cfg st.2.1 e.1 e.2.1).1,
        (revealCellWithFlood cfg st.2.1 e.1 e.2.1).2, st.2.2) hprops' hnodup' hfr' hmo'
        hnr' hminv'
      refine ⟨hihl.1, gridMono_trans hspec.2.1 hihl.2.1, hihl.2.2.1, ?_, ?_⟩
      · intro e' he'
        rcases List.mem_cons.mp he' with rfl | he''
        · exact hihl.2.1 e'.1 e'.2.1 hrevealed
        · exact hihl.2.2.2.1 e' he''
      · rw [hihl.2.2.2.2]
        rw [List.filter_cons, if_neg (by simp [hm'])]

/-- Specification of `handleChordClick`: frame, monotonicity and exact
record accounting relative to the pre-call grid. -/
theorem handleChordClick_spec (cfg : Config) (hS : 0 < cfg.CHUNK_SIZE)
    (g : Grid) (bombs cx cy x y : Int) :
    gridFrame g (handleChordClick cfg g bombs cx cy x y).2.1 ∧
    gridMono g (handleChordClick cfg g bombs cx cy x y).2.1 ∧
    NewRecords cfg g (handleChordClick cfg g bombs cx cy x y).2.1
      (handleChordClick cfg g bombs cx cy x y).1 := by
  simp only [handleChordClick]
  by_cases hoob : cx * cfg.CHUNK_SIZE + x < 0 ∨ cx * cfg.CHUNK_SIZE + x ≥ cfg.GRID_WIDTH ∨
      cy * cfg.CHUNK_SIZE + y < 0 ∨ cy * cfg.CHUNK_SIZE + y ≥ cfg.GRID_HEIGHT
  · rw [if_pos hoob]
    exact ⟨gridFrame_refl _, gridMono_refl _, NewRecords_nil cfg g⟩
  · rw [if_neg hoob]
    by_cases hng : (!(g (cx * cfg.CHUNK_SIZE + x) (cy * cfg.CHUNK_SIZE + y)).revealed ||
        (g (cx * cfg.CHUNK_SIZE + x) (cy * cfg.CHUNK_SIZE + y)).adjacentMines == 0) = true
    · rw [if_pos hng]
      exact ⟨gridFrame_refl _, gridMono_refl _, NewRecords_nil cfg g⟩
    · rw [if_neg hng]
      by_cases hcnt : (chordScan cfg g (cx * cfg.CHUNK_SIZE + x) (cy * cfg.CHUNK_SIZE + y)).1 +
          (chordScan cfg g (cx * cfg.CHUNK_SIZE + x) (cy * cfg.CHUNK_SIZE + y)).2.1 =
          (g (cx * cfg.CHUNK_SIZE + x) (cy * cfg.CHUNK_SIZE + y)).adjacentMines
      · rw [if_pos hcnt]
        have hprops := chordScan_cand_props cfg g (cx * cfg.CHUNK_SIZE + x)
          (cy * cfg.CHUNK_SIZE + y)
        have hfold := chordFold_spec cfg hS g
          (chordScan cfg g (cx * cfg.CHUNK_SIZE + x) (cy * cfg.CHUNK_SIZE + y)).2.2
          ([], g, bombs) hprops
          (chordScan_cands_nodup cfg g (cx * cfg.CHUNK_SIZE + x) (cy * cfg.CHUNK_SIZE + y))
          (gridFrame_refl g) (gridMono_refl g) (NewRecords_nil cfg g)
          (fun e he _ => (hprops e he).2.2.1)
        exact ⟨hfold.1, hfold.2.1, hfold.2.2.1⟩
      · rw [if_neg hcnt]
        exact ⟨gridFrame_refl _, gridMono_refl _, NewRecords_nil cfg g⟩

/-- `flag_cell` touches only the `flagged` field. -/
theorem flagCell_spec (cfg : Config) (g : Grid) (cx cy x y : Int) :
    ∀ a b : Int, ((flagCell cfg g cx cy x y).1 a b).hasMine = (g a b).hasMine ∧
      ((flagCell cfg g cx cy x y).1 a b).adjacentMines = (g a b).adjacentMines ∧
      ((flagCell cfg g cx cy x y).1 a b).revealed = (g a b).revealed := by
  intro a b
  simp only [flagCell]
  by_cases hoob : cx * cfg.CHUNK_SIZE + x < 0 ∨ cx * cfg.CHUNK_SIZE + x ≥ cfg.GRID_WIDTH ∨
      cy * cfg.CHUNK_SIZE + y < 0 ∨ cy * cfg.CHUNK_SIZE + y ≥ cfg.GRID_HEIGHT
  · rw [if_pos hoob]
    exact ⟨rfl, rfl, rfl⟩
  · rw [if_neg hoob]
    by_cases hrev : (g (cx * cfg.CHUNK_SIZE + x) (cy * cfg.CHUNK_SIZE + y)).revealed = true
    · rw [if_pos hrev]
      exact ⟨rfl, rfl, rfl⟩
    · rw [if_neg hrev]
      show (toggleFlagged g (cx * cfg.CHUNK_SIZE + x) (cy * cfg.CHUNK_SIZE + y) a b).hasMine =
          (g a b).hasMine ∧
        (toggleFlagged g (cx * cfg.CHUNK_SIZE + x) (cy * cfg.CHUNK_SIZE + y) a b).adjacentMines =
          (g a b).adjacentMines ∧
        (toggleFlagged g (cx * cfg.CHUNK_SIZE + x) (cy * cfg.CHUNK_SIZE + y) a b).revealed =
          (g a b).revealed
      unfold toggleFlagged
      split <;> exact ⟨rfl, rfl, rfl⟩

/-- Reading the record list of an operation as the exact delta of the
`revealed` flags. -/
theorem NewRecords_exact {cfg : Config} {g g' : Grid} {δ : List CellUpdate}
    (hfr : gridFrame g g') (hmo : gridMono g g') (hnr : NewRecords cfg g g' δ) :
    (globList cfg δ).Nodup ∧
    (∀ c : Int × Int, c ∈ globList cfg δ ↔
      ((g c.1 c.2).revealed = false ∧ (g' c.1 c.2).revealed = true)) ∧
    (∀ c : Int × Int, c ∉ globList cfg δ →
      (g' c.1 c.2).revealed = (g c.1 c.2).revealed ∧
      (g' c.1 c.2).flagged = (g c.1 c.2).flagged) := by
  obtain ⟨hnd, hmem, hcomp⟩ := hnr
  refine ⟨hnd, fun c => ⟨fun hc => ⟨(hmem c hc).2.1, (hmem c hc).2.2.2⟩,
    fun hp => hcomp c hp.1 hp.2⟩, fun c hc => ⟨?_, (hfr c.1 c.2).2.2⟩⟩
  cases hr : (g c.1 c.2).revealed
  · cases hr' : (g' c.1 c.2).revealed
    · rfl
    · exact absurd (hcomp c hr hr') hc
  · rw [hmo c.1 c.2 hr]

/-! Adjacency-count lemmas. -/

theorem countAdjacent_eq_spec (cfg : Config) (g : Grid) (x y : Int) :
    countAdjacentMinesInCompleteGrid cfg g x y = adjacentMineSpec cfg g x y := by
  unfold countAdjacentMinesInCompleteGrid adjacentMineSpec
  rw [List.countP_map]
  have aux : ∀ (l : List (Int × Int)) (n : Nat),
      l.foldl (fun count d =>
        if 0 ≤ x + d.1 ∧ x + d.1 < cfg.GRID_WIDTH ∧ 0 ≤ y + d.2 ∧ y + d.2 < cfg.GRID_HEIGHT then
          if (g (x + d.1) (y + d.2)).hasMine then count + 1 else count
        else count) n =
      n + l.countP ((fun c => decide (InBounds cfg c.1 c.2 ∧ (g c.1 c.2).hasMine = true)) ∘
        (fun d => (x + d.1, y + d.2))) := by
    intro l
    induction l with
    | nil =>
      intro n
      simp
    | cons d t ihl =>
      intro n
      rw [List.foldl_cons, List.countP_cons, ihl]
      by_cases hb : 0 ≤ x + d.1 ∧ x + d.1 < cfg.GRID_WIDTH ∧ 0 ≤ y + d.2 ∧
          y + d.2 < cfg.GRID_HEIGHT
      · have hbI : InBounds cfg (x + d.1) (y + d.2) := hb
        rw [if_pos hb]
        by_cases hm : (g (x + d.1) (y + d.2)).hasMine = true
        · rw [if_pos hm]
          have hp : ((fun c : Int × Int => decide (InBounds cfg c.1 c.2 ∧
              (g c.1 c.2).hasMine = true)) ∘ (fun d : Int × Int => (x + d.1, y + d.2))) d =
              true := by
            simp [hbI, hm]
          rw [hp]
          norm_num
          omega
        · rw [if_neg hm]
          have hp : ((fun c : Int × Int => decide (InBounds cfg c.1 c.2 ∧
              (g c.1 c.2).hasMine = true)) ∘ (fun d : Int × Int => (x + d.1, y + d.2))) d =
              false := by
            simp only [Function.comp_apply, decide_eq_false_iff_not, not_and]
            intro _
            simpa using hm
          rw [hp]
          norm_num
      · rw [if_neg hb]
        have hp : ((fun c : Int × Int => decide (InBounds cfg c.1 c.2 ∧
            (g c.1 c.2).hasMine = true)) ∘ (fun d : Int × Int => (x + d.1, y + d.2))) d =
            false := by
          simp only [Function.comp_apply, decide_eq_false_iff_not, not_and]
          intro hbI
          exact absurd hbI hb
        rw [hp]
        norm_num
  rw [aux]
  simp

theorem adjacentMineSpec_congr (cfg : Config) {g g' : Grid}
    (h : ∀ a b : Int, (g' a b).hasMine = (g a b).hasMine) (x y : Int) :
    adjacentMineSpec cfg g' x y = adjacentMineSpec cfg g x y := by
  unfold adjacentMineSpec
  apply List.countP_congr
  intro c _
  simp [h c.1 c.2]

/-- Claim C10: changed-cell list accuracy.  For reveal and chord, the
returned list names each global cell coordinate at most once; a
coordinate is listed exactly when its `revealed` flag flipped from false
to true during the call; and every unlisted cell keeps both its
`revealed` and its `flagged` value. -/
theorem C10_changed_list_exact :
    ∀ (cfg : Config) (g : Grid) (bombs cx cy x y : Int), 0 < cfg.CHUNK_SIZE →
      ((globList cfg (revealCell cfg g bombs cx cy x y).1).Nodup ∧
        (∀ c : Int × Int, c ∈ globList cfg (revealCell cfg g bombs cx cy x y).1 ↔
          ((g c.1 c.2).revealed = false ∧
            ((revealCell cfg g bombs cx cy x y).2.1 c.1 c.2).revealed = true)) ∧
        (∀ c : Int × Int, c ∉ globList cfg (revealCell cfg g bombs cx cy x y).1 →
          ((revealCell cfg g bombs cx cy x y).2.1 c.1 c.2).revealed = (g c.1 c.2).revealed ∧
          ((revealCell cfg g bombs cx cy x y).2.1 c.1 c.2).flagged = (g c.1 c.2).flagged)) ∧
      ((globList cfg (handleChordClick cfg g bombs cx cy x y).1).Nodup ∧
        (∀ c : Int × Int, c ∈ globList cfg (handleChordClick cfg g bombs cx cy x y).1 ↔
          ((g c.1 c.2).revealed = false ∧
            ((handleChordClick cfg g bombs cx cy x y).2.1 c.1 c.2).revealed = true)) ∧
        (∀ c : Int × Int, c ∉ globList cfg (handleChordClick cfg g bombs cx cy x y).1 →
          ((handleChordClick cfg g bombs cx cy x y).2.1 c.1 c.2).revealed =
            (g c.1 c.2).revealed ∧
          ((handleChordClick cfg g bombs cx cy x y).2.1 c.1 c.2).flagged =
            (g c.1 c.2).flagged)) := by
  intro cfg g bombs cx cy x y hS
  have h1 := revealCell_spec cfg hS g bombs cx cy x y
  have h2 := handleChordClick_spec cfg hS g bombs cx cy x y
  exact ⟨NewRecords_exact h1.1 h1.2.1 h1.2.2, NewRecords_exact h2.1 h2.2.1 h2.2.2⟩

/-- Witness for C10 on the 4×4 fixture: a flood reveal at `(0, 0)`. -/
theorem C10_changed_list_exact_witness :
    (globList cfg4 (revealCell cfg4 testGridA 0 0 0 0 0).1).Nodup ∧
    ((0, 0) ∈ globList cfg4 (revealCell cfg4 testGridA 0 0 0 0 0).1 ↔
      ((testGridA 0 0).revealed = false ∧
        ((revealCell cfg4 testGridA 0 0 0 0 0).2.1 0 0).revealed = true)) :=
  ⟨(C10_changed_list_exact cfg4 testGridA 0 0 0 0 0 (by decide)).1.1,
    (C10_changed_list_exact cfg4 testGridA 0 0 0 0 0 (by decide)).1.2.1 (0, 0)⟩

/-- Claim C9: flag/reveal mutual exclusion and reveal monotonicity.
Toggling the flag of a revealed cell changes nothing (no update is
emitted); revealing a flagged cell changes nothing; and none of the three
operations ever resets a `revealed` flag to false. -/
theorem C9_exclusion_and_monotonicity :
    ∀ (cfg : Config) (g : Grid) (bombs cx cy x y : Int),
      ((g (cx * cfg.CHUNK_SIZE + x) (cy * cfg.CHUNK_SIZE + y)).revealed = true →
        flagCell cfg g cx cy x y = (g, false)) ∧
      ((g (cx * cfg.CHUNK_SIZE + x) (cy * cfg.CHUNK_SIZE + y)).flagged = true →
        revealCell cfg g bombs cx cy x y = ([], g, bombs)) ∧
      (0 < cfg.CHUNK_SIZE → ∀ a b : Int, (g a b).revealed = true →
        ((revealCell cfg g bombs cx cy x y).2.1 a b).revealed = true ∧
        ((handleChordClick cfg g bombs cx cy x y).2.1 a b).revealed = true ∧
        ((flagCell cfg g cx cy x y).1 a b).revealed = true) := by
  intro cfg g bombs cx cy x y
  refine ⟨fun h => ?_, fun h => ?_, fun hS a b h => ?_⟩
  · by_cases hb : cx * cfg.CHUNK_SIZE + x < 0 ∨ cx * cfg.CHUNK_SIZE + x ≥ cfg.GRID_WIDTH ∨
        cy * cfg.CHUNK_SIZE + y < 0 ∨ cy * cfg.CHUNK_SIZE + y ≥ cfg.GRID_HEIGHT
    · unfold flagCell
      rw [if_pos hb]
    · unfold flagCell
      rw [if_neg hb]
      simp [h]
  · by_cases hb : cx * cfg.CHUNK_SIZE + x < 0 ∨ cx * cfg.CHUNK_SIZE + x ≥ cfg.GRID_WIDTH ∨
        cy * cfg.CHUNK_SIZE + y < 0 ∨ cy * cfg.CHUNK_SIZE + y ≥ cfg.GRID_HEIGHT
    · unfold revealCell
      rw [if_pos hb]
    · unfold revealCell
      rw [if_neg hb]
      simp [h]
  · refine ⟨(revealCell_spec cfg hS g bombs cx cy x y).2.1 a b h,
      (handleChordClick_spec cfg hS g bombs cx cy x y).2.1 a b h, ?_⟩
    rw [(flagCell_spec cfg g cx cy x y a b).2.2]
    exact h

/-- Witness for C9 on the chord fixture: flag aimed at the revealed
`(1, 1)`, reveal aimed at the flagged `(0, 0)`, and survival of the
revealed flag of `(1, 1)` across an unrelated reveal. -/
theorem C9_exclusion_and_monotonicity_witness :
    flagCell cfg4 testGridB 0 0 1 1 = (testGridB, false) ∧
    revealCell cfg4 testGridB 0 0 0 0 0 = ([], testGridB, 0) ∧
    ((revealCell cfg4 testGridB 0 0 0 1 0).2.1 1 1).revealed = true :=
  ⟨(C9_exclusion_and_monotonicity cfg4 testGridB 0 0 0 1 1).1 (by decide),
    (C9_exclusion_and_monotonicity cfg4 testGridB 0 0 0 0 0).2.1 (by decide),
    ((C9_exclusion_and_monotonicity cfg4 testGridB 0 0 0 1 0).2.2 (by decide) 1 1
      (by decide)).1⟩

/-- Claim C4: adjacency invariant.  After initialization every in-bounds
cell's `adjacentMines` equals the number of its in-bounds 8-neighbors
that carry a mine in the final layout; reveal, flag toggle and chord
never change `hasMine` or `adjacentMines` anywhere; hence the invariant
is preserved by every operation. -/
theorem C4_adjacency_invariant :
    (∀ (cfg : Config) (p : ℚ) (stream : List (Int × Int)) (g : Grid),
      initializeCompleteGrid cfg p stream = some g →
      ∀ a b : Int, InBounds cfg a b → (g a b).adjacentMines = adjacentMineSpec cfg g a b) ∧
    (∀ (cfg : Config) (g : Grid) (bombs cx cy x y : Int), 0 < cfg.CHUNK_SIZE →
      ∀ a b : Int,
        ((revealCell cfg g bombs cx cy x y).2.1 a b).hasMine = (g a b).hasMine ∧
        ((revealCell cfg g bombs cx cy x y).2.1 a b).adjacentMines = (g a b).adjacentMines ∧
        ((handleChordClick cfg g bombs cx cy x y).2.1 a b).hasMine = (g a b).hasMine ∧
        ((handleChordClick cfg g bombs cx cy x y).2.1 a b).adjacentMines =
          (g a b).adjacentMines ∧
        ((flagCell cfg g cx cy x y).1 a b).hasMine = (g a b).hasMine ∧
        ((flagCell cfg g cx cy x y).1 a b).adjacentMines = (g a b).adjacentMines) ∧
    (∀ (cfg : Config) (g : Grid) (bombs cx cy x y : Int), 0 < cfg.CHUNK_SIZE →
      (∀ a b : Int, InBounds cfg a b → (g a b).adjacentMines = adjacentMineSpec cfg g a b) →
      ∀ a b : Int, InBounds cfg a b →
        ((revealCell cfg g bombs cx cy x y).2.1 a b).adjacentMines =
          adjacentMineSpec cfg (revealCell cfg g bombs cx cy x y).2.1 a b ∧
        ((handleChordClick cfg g bombs cx cy x y).2.1 a b).adjacentMines =
          adjacentMineSpec cfg (handleChordClick cfg g bombs cx cy x y).2.1 a b ∧
        ((flagCell cfg g cx cy x y).1 a b).adjacentMines =
          adjacentMineSpec cfg (flagCell cfg g cx cy x y).1 a b) := by
  refine ⟨?_, ?_, ?_⟩
  · intro cfg p stream g hinit a b hin
    unfold initializeCompleteGrid at hinit
    cases hpm : placeMinesInCompleteGrid (fun _ _ => Cell.init) 0 (mineCountOf cfg p)
        stream with
    | none =>
      rw [hpm] at hinit
      cases hinit
    | some g1 =>
      rw [hpm] at hinit
      injection hinit with h2
      subst h2
      have hcalc : (calculateAdjacentCountsForCompleteGrid cfg g1 a b).adjacentMines =
          countAdjacentMinesInCompleteGrid cfg g1 a b := by
        unfold calculateAdjacentCountsForCompleteGrid
        rw [if_pos hin]
      rw [hcalc, countAdjacent_eq_spec]
      exact (adjacentMineSpec_congr cfg (fun a b => (calc_pointwise cfg g1 a b).1) a b).symm
  · intro cfg g bombs cx cy x y hS a b
    have h1 := (revealCell_spec cfg hS g bombs cx cy x y).1 a b
    have h2 := (handleChordClick_spec cfg hS g bombs cx cy x y).1 a b
    have h3 := flagCell_spec cfg g cx cy x y a b
    exact ⟨h1.1, h1.2.1, h2.1, h2.2.1, h3.1, h3.2.1⟩
  · intro cfg g bombs cx cy x y hS hinvar a b hin
    have h1 := (revealCell_spec cfg hS g bombs cx cy x y).1
    have h2 := (handleChordClick_spec cfg hS g bombs cx cy x y).1
    have h3 := flagCell_spec cfg g cx cy x y
    refine ⟨?_, ?_, ?_⟩
    · rw [(h1 a b).2.1, hinvar a b hin]
      exact (adjacentMineSpec_congr cfg (fun a b => (h1 a b).1) a b).symm
    · rw [(h2 a b).2.1, hinvar a b hin]
      exact (adjacentMineSpec_congr cfg (fun a b => (h2 a b).1) a b).symm
    · rw [(h3 a b).2.1, hinvar a b hin]
      exact (adjacentMineSpec_congr cfg (fun a b => (h3 a b).1) a b).symm

/-- Witness for C4: the initialized 4×4 fixture satisfies the invariant
at `(1, 1)`, and a reveal leaves the mine layout untouched at `(0, 0)`. -/
theorem C4_adjacency_invariant_witness :
    initializeCompleteGrid cfg4 (1/8) initStream = some gInitTest ∧
    (gInitTest 1 1).adjacentMines = adjacentMineSpec cfg4 gInitTest 1 1 ∧
    ((revealCell cfg4 gInitTest 0 0 0 2 2).2.1 0 0).hasMine = (gInitTest 0 0).hasMine := by
  have hmc : mineCountOf cfg4 (1/8) = 2 := by norm_num [mineCountOf, cfg4]
  have hinit : initializeCompleteGrid cfg4 (1/8) initStream = some gInitTest := by
    unfold initializeCompleteGrid
    rw [hmc]
    rfl
  exact ⟨hinit,
    C4_adjacency_invariant.1 cfg4 (1/8) initStream gInitTest hinit 1 1 (by decide),
    (C4_adjacency_invariant.2.1 cfg4 gInitTest 0 0 0 2 2 (by decide) 0 0).1⟩

/-- Claim C2: chord-reveal correctness.  On an in-bounds target: an
unrevealed or zero-count target yields an empty list and no state change;
when the flagged-neighbor count plus the revealed-mine-neighbor count
differs from the target's number, the result is empty and no state
changes; and when the counts match, every unrevealed unflagged in-bounds
neighbor ends revealed (safe ones through the flood rule) and the
exploded-mine counter grows by exactly the number of mine candidates. -/
theorem C2_chord_correctness :
    ∀ (cfg : Config) (g : Grid) (bombs cx cy x y : Int),
      0 < cfg.CHUNK_SIZE →
      InBounds cfg (cx * cfg.CHUNK_SIZE + x) (cy * cfg.CHUNK_SIZE + y) →
      (((g (cx * cfg.CHUNK_SIZE + x) (cy * cfg.CHUNK_SIZE + y)).revealed = false ∨
          (g (cx * cfg.CHUNK_SIZE + x) (cy * cfg.CHUNK_SIZE + y)).adjacentMines = 0) →
        handleChordClick cfg g bombs cx cy x y = ([], g, bombs)) ∧
      ((g (cx * cfg.CHUNK_SIZE + x) (cy * cfg.CHUNK_SIZE + y)).revealed = true →
        0 < (g (cx * cfg.CHUNK_SIZE + x) (cy * cfg.CHUNK_SIZE + y)).adjacentMines →
        (((chordScan cfg g (cx * cfg.CHUNK_SIZE + x) (cy * cfg.CHUNK_SIZE + y)).1 +
            (chordScan cfg g (cx * cfg.CHUNK_SIZE + x) (cy * cfg.CHUNK_SIZE + y)).2.1 ≠
            (g (cx * cfg.CHUNK_SIZE + x) (cy * cfg.CHUNK_SIZE + y)).adjacentMines →
          handleChordClick cfg g bombs cx cy x y = ([], g, bombs)) ∧
        ((chordScan cfg g (cx * cfg.CHUNK_SIZE + x) (cy * cfg.CHUNK_SIZE + y)).1 +
            (chordScan cfg g (cx * cfg.CHUNK_SIZE + x) (cy * cfg.CHUNK_SIZE + y)).2.1 =
            (g (cx * cfg.CHUNK_SIZE + x) (cy * cfg.CHUNK_SIZE + y)).adjacentMines →
          (∀ d ∈ neighborOffsets,
            InBounds cfg (cx * cfg.CHUNK_SIZE + x + d.1) (cy * cfg.CHUNK_SIZE + y + d.2) →
            (g (cx * cfg.CHUNK_SIZE + x + d.1) (cy * cfg.CHUNK_SIZE + y + d.2)).revealed =
              false →
            (g (cx * cfg.CHUNK_SIZE + x + d.1) (cy * cfg.CHUNK_SIZE + y + d.2)).flagged =
              false →
            ((handleChordClick cfg g bombs cx cy x y).2.1
              (cx * cfg.CHUNK_SIZE + x + d.1) (cy * cfg.CHUNK_SIZE + y + d.2)).revealed =
              true) ∧
          (handleChordClick cfg g bombs cx cy x y).2.2 = bombs +
            (((chordScan cfg g (cx * cfg.CHUNK_SIZE + x)
              (cy * cfg.CHUNK_SIZE + y)).2.2.filter
                (fun e => e.2.2.hasMine)).length : Int)))) := by
  intro cfg g bombs cx cy x y hS hin
  have hoob : ¬(cx * cfg.CHUNK_SIZE + x < 0 ∨ cx * cfg.CHUNK_SIZE + x ≥ cfg.GRID_WIDTH ∨
      cy * cfg.CHUNK_SIZE + y < 0 ∨ cy * cfg.CHUNK_SIZE + y ≥ cfg.GRID_HEIGHT) := by
    unfold InBounds at hin
    omega
  constructor
  · intro hno
    simp only [handleChordClick]
    rw [if_neg hoob, if_pos (by rcases hno with h | h <;> simp [h])]
  · intro hrev hadj
    have hng : ¬((!(g (cx * cfg.CHUNK_SIZE + x) (cy * cfg.CHUNK_SIZE + y)).revealed ||
        (g (cx * cfg.CHUNK_SIZE + x) (cy * cfg.CHUNK_SIZE + y)).adjacentMines == 0) = true) := by
      simp only [hrev, Bool.not_true, Bool.false_or, beq_iff_eq]
      omega
    constructor
    · intro hcnt
      simp only [handleChordClick]
      rw [if_neg hoob, if_neg hng, if_neg hcnt]
    · intro hcnt
      have key : handleChordClick cfg g bombs cx cy x y =
          (chordScan cfg g (cx * cfg.CHUNK_SIZE + x)
            (cy * cfg.CHUNK_SIZE + y)).2.2.foldl (chordFoldStep cfg) ([], g, bombs) := by
        simp only [handleChordClick]
        rw [if_neg hoob, if_neg hng, if_pos hcnt]
      have hprops := chordScan_cand_props cfg g (cx * cfg.CHUNK_SIZE + x)
        (cy * cfg.CHUNK_SIZE + y)
      have hfold := chordFold_spec cfg hS g
        (chordScan cfg g (cx * cfg.CHUNK_SIZE + x) (cy * cfg.CHUNK_SIZE + y)).2.2
        ([], g, bombs) hprops
        (chordScan_cands_nodup cfg g (cx * cfg.CHUNK_SIZE + x) (cy * cfg.CHUNK_SIZE + y))
        (gridFrame_refl g) (gridMono_refl g) (NewRecords_nil cfg g)
        (fun e he _ => (hprops e he).2.2.1)
      constructor
      · intro d hd hbd hrvd hfld
        have hmem := chordScan_cand_mem cfg g (cx * cfg.CHUNK_SIZE + x)
          (cy * cfg.CHUNK_SIZE + y) d hd hbd hfld hrvd
        have hres := hfold.2.2.2.1 _ hmem
        rw [key]
        exact hres
      · rw [key, hfold.2.2.2.2]

/-- Witness for C2 on the chord fixture: chording the revealed 1 at
`(1, 1)` with its single correct flag reveals the unflagged neighbor
`(2, 1)`; chording an unrevealed cell of the other fixture is a no-op. -/
theorem C2_chord_correctness_witness :
    ((handleChordClick cfg4 testGridB 0 0 0 1 1).2.1 2 1).revealed = true ∧
    handleChordClick cfg4 testGridA 0 0 0 1 1 = ([], testGridA, 0) :=
  ⟨(((C2_chord_correctness cfg4 testGridB 0 0 0 1 1 (by decide) (by decide)).2
      (by decide) (by decide)).2 (by decide)).1 (1, 0) (by decide) (by decide) (by decide)
      (by decide),
    (C2_chord_correctness cfg4 testGridA 0 0 0 1 1 (by decide) (by decide)).1
      (Or.inl (by decide))⟩

theorem mem_borderOf (cfg : Config) (R : Finset (Int × Int)) (n : Int × Int) :
    n ∈ borderOf cfg R ↔
      ((∃ c ∈ R, ∃ d ∈ neighborOffsets, n = (c.1 + d.1, c.2 + d.2)) ∧ n ∉ R ∧
        InBounds cfg n.1 n.2) := by
  unfold borderOf
  simp only [Finset.mem_filter, Finset.mem_biUnion, Finset.mem_image, List.mem_toFinset]
  constructor
  · rintro ⟨⟨c, hc, d, hd, hn⟩, h2, h3⟩
    exact ⟨⟨c, hc, d, hd, hn.symm⟩, h2, h3⟩
  · rintro ⟨⟨c, hc, d, hd, hn⟩, h2, h3⟩
    exact ⟨⟨c, hc, d, hd, hn.symm⟩, h2, h3⟩

/-- Claim C1: flood-fill reveal completeness and exactness.  For a region
R of contiguous zero-adjacency mine-free cells, all unrevealed and
unflagged, bordered only by numbered mine-free cells, revealing any cell
of R reveals exactly R plus every directly-bordering numbered unflagged
unrevealed cell, reveals no mine, and returns exactly that set of cells
(each once). -/
theorem C1_flood_fill_exact :
    ∀ (cfg : Config) (g : Grid) (bombs cx cy x y sx sy : Int) (R : Finset (Int × Int)),
      0 < cfg.CHUNK_SIZE →
      cx * cfg.CHUNK_SIZE + x = sx →
      cy * cfg.CHUNK_SIZE + y = sy →
      ZeroRegion cfg g R →
      NumberedBorder cfg g R →
      (sx, sy) ∈ R →
      ConnectedFrom R (sx, sy) →
      (∀ c : Int × Int, ((revealCell cfg g bombs cx cy x y).2.1 c.1 c.2).revealed = true ↔
        ((g c.1 c.2).revealed = true ∨ c ∈ R ∨ c ∈ eligibleBorder cfg g R)) ∧
      (∀ c : Int × Int, (g c.1 c.2).hasMine = true →
        ((revealCell cfg g bombs cx cy x y).2.1 c.1 c.2).revealed = (g c.1 c.2).revealed) ∧
      (globList cfg (revealCell cfg g bombs cx cy x y).1).Nodup ∧
      (∀ c : Int × Int, c ∈ globList cfg (revealCell cfg g bombs cx cy x y).1 ↔
        (c ∈ R ∨ c ∈ eligibleBorder cfg g R)) := by
  intro cfg g bombs cx cy x y sx sy R hS hgx hgy hreg hnum hstart hconn
  obtain ⟨hinS, hadjS, hmineS, hrevS, hflaS⟩ := hreg _ hstart
  have hW : 0 < cfg.GRID_WIDTH := lt_of_le_of_lt hinS.1 hinS.2.1
  have hH : 0 < cfg.GRID_HEIGHT := lt_of_le_of_lt hinS.2.2.1 hinS.2.2.2
  have hkey : revealCell cfg g bombs cx cy x y =
      ((flood cfg (floodFuel cfg) ⟨g, ∅, []⟩ sx sy).acc,
        (flood cfg (floodFuel cfg) ⟨g, ∅, []⟩ sx sy).grid, bombs) := by
    simp only [revealCell, hgx, hgy]
    rw [if_neg (by unfold InBounds at hinS; omega), if_neg (by simp [hrevS, hflaS]),
      if_pos (by simp [hadjS, hmineS])]
  have hsg : (⟨g, ∅, []⟩ : FloodState).grid = g := rfl
  obtain ⟨hfr, hmo, _, δ, hacc, hnr⟩ :=
    flood_rel cfg hS (floodFuel cfg) ⟨g, ∅, []⟩ sx sy hinS
  rw [hsg] at hfr hmo hnr
  have hacc' : (flood cfg (floodFuel cfg) ⟨g, ∅, []⟩ sx sy).acc = δ := by
    rw [hacc]
    simp
  have hcompl := flood_complete cfg hS (floodFuel cfg) ⟨g, ∅, []⟩ sx sy hinS
    (fun c hc => absurd hc (Finset.not_mem_empty c)) (bounds_card_lt_fuel cfg hW hH)
  rw [hsg] at hcompl
  -- soundness: nothing outside R and its border is ever revealed
  have hcl : ClosedUnder cfg g (↑R ∪ ↑(borderOf cfg R)) := by
    intro c hc hadj hmine d hd hbd hmined
    rcases hc with hcR | hcB
    · rw [Finset.mem_coe] at hcR
      by_cases hn : (c.1 + d.1, c.2 + d.2) ∈ R
      · exact Or.inl hn
      · refine Or.inr ?_
        rw [Finset.mem_coe]
        exact (mem_borderOf cfg R _).mpr ⟨⟨c, hcR, d, hd, rfl⟩, hn, hbd⟩
    · rw [Finset.mem_coe] at hcB
      have := (hnum c hcB).1
      rw [hadj] at this
      exact absurd this (by decide)
  have hsound := flood_sound cfg hS (↑R ∪ ↑(borderOf cfg R)) (floodFuel cfg) ⟨g, ∅, []⟩
    sx sy hinS (Or.inl hstart) ?hclosed
  case hclosed =>
    rw [hsg]
    exact hcl
  rw [hsg] at hsound
  -- completeness on the region, by induction on connectivity paths
  have hcompR : ∀ c ∈ R,
      ((flood cfg (floodFuel cfg) ⟨g, ∅, []⟩ sx sy).grid c.1 c.2).revealed = true := by
    intro c hcR
    have hpath := hconn c hcR
    clear hcR
    induction hpath with
    | refl =>
      rcases hcompl.1 with h | h
      · exact h
      · rw [hflaS] at h
        exact absurd h (by decide)
    | tail hab hbc ihp =>
      obtain ⟨hbR, hcR2, hdoff⟩ := hbc
      obtain ⟨hinb, hadjb, hmineb, hrevb, hflab⟩ := hreg _ hbR
      obtain ⟨hinc, hadjc, hminec, hrevc, hflac⟩ := hreg _ hcR2
      rename_i b c'
      have he1 : b.1 + (c'.1 - b.1) = c'.1 := by ring
      have he2 : b.2 + (c'.2 - b.2) = c'.2 := by ring
      have hstep := hcompl.2.2 b hrevb ihp hadjb hmineb (c'.1 - b.1, c'.2 - b.2) hdoff
        (by rw [he1, he2]; exact hinc) (by rw [he1, he2]; exact hminec)
      rw [he1, he2] at hstep
      rcases hstep with h | h
      · exact h
      · rw [hflac] at h
        exact absurd h (by decide)
  -- completeness on the eligible border cells
  have hcompB : ∀ c ∈ eligibleBorder cfg g R,
      ((flood cfg (floodFuel cfg) ⟨g, ∅, []⟩ sx sy).grid c.1 c.2).revealed = true := by
    intro c hcE
    rw [eligibleBorder, Finset.mem_filter] at hcE
    obtain ⟨hcB, hrvc, hflc⟩ := hcE
    obtain ⟨⟨b, hbR, d, hd, hceq⟩, _, hbc⟩ := (mem_borderOf cfg R c).mp hcB
    obtain ⟨hinb, hadjb, hmineb, hrevb, hflab⟩ := hreg _ hbR
    have hc1 : c.1 = b.1 + d.1 := by rw [hceq]
    have hc2 : c.2 = b.2 + d.2 := by rw [hceq]
    have hminec : (g c.1 c.2).hasMine = false := (hnum c hcB).2
    have hstep := hcompl.2.2 b hrevb (hcompR b hbR) hadjb hmineb d hd
      (by rw [← hc1, ← hc2]; exact hbc) (by rw [← hc1, ← hc2]; exact hminec)
    rw [← hc1, ← hc2] at hstep
    rcases hstep with h | h
    · exact h
    · rw [hflc] at h
      exact absurd h (by decide)
  -- assemble the four conclusions
  rw [hkey]
  refine ⟨fun c => ⟨fun h => ?_, fun h => ?_⟩, fun c hcm => ?_, ?_, fun c => ⟨fun h => ?_,
    fun h => ?_⟩⟩
  · by_cases hgc : (g c.1 c.2).revealed = true
    · exact Or.inl hgc
    · have hgc' : (g c.1 c.2).revealed = false := by simpa using hgc
      have hmemδ := hnr.2.2 c hgc' h
      have hflagc : (g c.1 c.2).flagged = false := (hnr.2.1 c hmemδ).2.2.1
      rcases hsound c hgc' h with hr | hb
      · rw [Finset.mem_coe] at hr
        exact Or.inr (Or.inl hr)
      · rw [Finset.mem_coe] at hb
        refine Or.inr (Or.inr ?_)
        rw [eligibleBorder, Finset.mem_filter]
        exact ⟨hb, hgc', hflagc⟩
  · rcases h with h | h | h
    · exact hmo c.1 c.2 h
    · exact hcompR c h
    · exact hcompB c h
  · cases hgr : (g c.1 c.2).revealed
    · cases hfl2 : ((flood cfg (floodFuel cfg) ⟨g, ∅, []⟩ sx sy).grid c.1 c.2).revealed
      · rfl
      · rcases hsound c hgr hfl2 with hr | hb
        · rw [Finset.mem_coe] at hr
          have := (hreg c hr).2.2.1
          rw [hcm] at this
          exact absurd this (by decide)
        · rw [Finset.mem_coe] at hb
          have := (hnum c hb).2
          rw [hcm] at this
          exact absurd this (by decide)
    · exact hmo c.1 c.2 hgr
  · rw [hacc']
    exact hnr.1
  · rw [hacc'] at h
    have hmem := hnr.2.1 c h
    rcases hsound c hmem.2.1 hmem.2.2.2 with hr | hb
    · rw [Finset.mem_coe] at hr
      exact Or.inl hr
    · rw [Finset.mem_coe] at hb
      refine Or.inr ?_
      rw [eligibleBorder, Finset.mem_filter]
      exact ⟨hb, hmem.2.1, hmem.2.2.1⟩
  · rw [hacc']
    rcases h with h | h
    · exact hnr.2.2 c (hreg c h).2.2.2.1 (hcompR c h)
    · have hrvc : (g c.1 c.2).revealed = false := by
        rw [eligibleBorder, Finset.mem_filter] at h
        exact h.2.1
      exact hnr.2.2 c hrvc (hcompB c h)

theorem C1_flood_fill_exact_witness :
    (∀ c : Int × Int, ((revealCell cfg4 testGridA 0 0 0 0 0).2.1 c.1 c.2).revealed = true ↔
      ((testGridA c.1 c.2).revealed = true ∨ c ∈ ({(0, 0)} : Finset (Int × Int)) ∨
        c ∈ eligibleBorder cfg4 testGridA {(0, 0)})) ∧
    (globList cfg4 (revealCell cfg4 testGridA 0 0 0 0 0).1).Nodup := by
  have h := C1_flood_fill_exact cfg4 testGridA 0 0 0 0 0 0 0 {(0, 0)} (by decide) (by decide)
    (by decide) (by unfold ZeroRegion; decide) (by unfold NumberedBorder; decide) (by decide)
    (fun c hc => by
      rw [Finset.mem_singleton] at hc
      subst hc
      exact Relation.ReflTransGen.refl)
  exact ⟨h.1, h.2.2.1⟩

end MassiveSweeper
